import Mathlib

/-!
# go-impl-ddd: Customer aggregate and in-memory customer repository

A shallow embedding of `aggregate/customer.go`, `entity/*.go`,
`valueobject/transaction.go`, `domain/customer/repository.go`,
`domain/customer/memory/memory.go` and `services/order.go`.

Modelling conventions.

* `uuid.UUID` is `[16]byte`; it is read as a 128-bit number.
* `Customer.person` is a Go pointer.  Persons therefore live in an explicit
  heap (`Heap`), and a `Customer` value holds an address (`none` is the nil
  pointer).  Go is memory safe, so dereferencing a non-nil pointer always
  succeeds: the heap is a total map from addresses to persons together with a
  bump allocation counter.
* A slice is `none` (the nil slice) or `some xs`; a map is `none` (the nil
  map) or `some m`.
* A Go call either returns, panics, or blocks for ever on a held mutex
  (`Outcome`).
* Methods with a pointer receiver take the receiver's value and return the
  receiver's value after the call.
-/

namespace GoImplDDD

/-! ## Go runtime vocabulary -/

/-- The type `uuid.UUID`, a 16-byte array, read as a 128-bit number. -/
abbrev UUID := Fin (2 ^ 128)

/-- The zero value of `uuid.UUID` (`uuid.Nil`). -/
def UUID.zero : UUID := 0

/-- Heap addresses of `entity.Person` / `entity.Item` objects. -/
abbrev Ptr := Nat

/-- Run-time failures that the modelled code can raise. -/
inductive Panic where
  | nilDeref
  | nilMapWrite
  | unlockOfUnlockedMutex
deriving DecidableEq, Repr

/-- How a Go call ends: it returns a value, it panics, or it blocks for ever
waiting for a mutex that is held. -/
inductive Outcome (α : Type) where
  | ret (a : α)
  | panic (p : Panic)
  | blocked
deriving DecidableEq, Repr

/-- Sequencing of Go statements: a panic or a block ends the call. -/
def Outcome.bind {α β : Type} (x : Outcome α) (f : α → Outcome β) : Outcome β :=
  match x with
  | .ret a => f a
  | .panic p => .panic p
  | .blocked => .blocked

instance : Monad Outcome where
  pure := Outcome.ret
  bind := Outcome.bind

/-- The call returned (it neither panicked nor blocked). -/
def Outcome.returns {α : Type} (x : Outcome α) : Bool :=
  match x with
  | .ret _ => true
  | _ => false

/-- The call ended in a panic. -/
def Outcome.panics {α : Type} (x : Outcome α) : Bool :=
  match x with
  | .panic _ => true
  | _ => false

/-- The sentinel errors declared with `errors.New` in the repository:
`aggregate.ErrInvalidPerson` and the three of `domain/customer/repository.go`. -/
inductive Sentinel where
  | ErrInvalidPerson
  | ErrCustomerNotFound
  | ErrFailedToAddCustomer
  | ErrUpdateCustomer
deriving DecidableEq, Repr

/-- A Go `error` value: `nil`, one of the sentinels, or the result of
`fmt.Errorf(format, inner)` whose format ends in `%w` (a wrapping error). -/
inductive GoError where
  | nil
  | sentinel (s : Sentinel)
  | wrap (text : String) (inner : GoError)
deriving DecidableEq, Repr

/-- The text passed to `errors.New` for each sentinel. -/
def Sentinel.message : Sentinel → String
  | .ErrInvalidPerson => "a customer has to have a valid name"
  | .ErrCustomerNotFound => "the customer was not fount in repository"
  | .ErrFailedToAddCustomer => "failed to add customer"
  | .ErrUpdateCustomer => "failed to update teh customer"

/-- The method `Error()`: the message of an error value. -/
def GoError.message : GoError → String
  | .nil => ""
  | .sentinel s => s.message
  | .wrap text inner => text ++ inner.message

/-- The call `errors.Is(err, target)` for a sentinel target: walks the chain
of wrapped errors. -/
def GoError.Is : GoError → Sentinel → Bool
  | .nil, _ => false
  | .sentinel s, t => decide (s = t)
  | .wrap _ inner, t => inner.Is t

/-- The type `sync.Mutex`. The zero value is an unlocked mutex. -/
structure Mutex where
  locked : Bool
deriving DecidableEq, Repr

/-- The method `(*sync.Mutex).Lock`: acquires the mutex, or blocks while it is
held. -/
def Mutex.Lock (m : Mutex) : Outcome Mutex :=
  if m.locked then .blocked else .ret { locked := true }

/-- The method `(*sync.Mutex).Unlock`: releases the mutex; unlocking an
unlocked mutex is a run-time error. -/
def Mutex.Unlock (m : Mutex) : Outcome Mutex :=
  if m.locked then .ret { locked := false } else .panic .unlockOfUnlockedMutex

/-- The builtin `len` on a slice: the nil slice has length 0. -/
def sliceLen {α : Type} : Option (List α) → Nat
  | none => 0
  | some xs => xs.length

/-! ## entity and valueobject -/

/-- The struct `entity.Person`. -/
structure Person where
  ID : UUID
  Name : String
  Age : Int
deriving DecidableEq, Repr

/-- The zero value `entity.Person{}`. -/
def Person.zero : Person := { ID := UUID.zero, Name := "", Age := 0 }

/-- The struct `entity.Item`. -/
structure Item where
  ID : UUID
  Name : String
  Description : String
deriving DecidableEq, Repr

/-- The struct `valueobject.Transaction`; `createdAt` (a `time.Time`) is kept
as an instant on the integer time line (`from` and `to` are reserved words,
hence the underscores). -/
structure Transaction where
  amount : Int
  from_ : UUID
  to_ : UUID
  createdAt : Int
deriving DecidableEq, Repr

/-- The heap of `entity.Person` objects: what each address holds and the next
address the allocator hands out. -/
structure Heap where
  persons : Ptr → Person
  next : Ptr

/-- The expression `&entity.Person{...}`: allocates a new object and yields
its address. -/
def Heap.alloc (h : Heap) (v : Person) : Ptr × Heap :=
  (h.next, { persons := Function.update h.persons h.next v, next := h.next + 1 })

/-- Stores `v` at address `p`. -/
def Heap.store (h : Heap) (p : Ptr) (v : Person) : Heap :=
  { h with persons := Function.update h.persons p v }

/-! ## aggregate/customer.go -/

/-- The struct `aggregate.Customer`: a pointer to the owned person, a slice
of item pointers and a slice of transactions. -/
structure Customer where
  person : Option Ptr
  products : Option (List (Option Ptr))
  transaction : Option (List Transaction)
deriving DecidableEq, Repr

/-- The zero value `Customer{}`. -/
def Customer.zero : Customer :=
  { person := none, products := none, transaction := none }

/-- The factory `NewCustomer(name)`. The argument `fresh` is the value that
`uuid.New()` yields when the factory calls it (it is called once, and only
for a non-empty name). -/
def NewCustomer (name : String) (fresh : UUID) (h : Heap) :
    (Customer × GoError) × Heap :=
  if name = "" then
    ((Customer.zero, GoError.sentinel .ErrInvalidPerson), h)
  else
    let (person, h1) := h.alloc { Name := name, ID := fresh, Age := 0 }
    (({ person := some person, products := some [], transaction := some [] },
      GoError.nil), h1)

/-- The method `(c *Customer) GetID()`: `return c.person.ID`. -/
def Customer.GetID (c : Customer) (h : Heap) : Outcome UUID :=
  match c.person with
  | none => .panic .nilDeref
  | some p => .ret (h.persons p).ID

/-- The method `(c *Customer) SetID(id)`; returns the receiver and the heap
after the call. -/
def Customer.SetID (c : Customer) (id : UUID) (h : Heap) : Outcome (Customer × Heap) :=
  let (c, h) :=
    if c.person = none then
      let (p, h1) := h.alloc Person.zero
      ({ c with person := some p }, h1)
    else (c, h)
  match c.person with
  | none => .panic .nilDeref
  | some p => .ret (c, h.store p { h.persons p with ID := id })

/-- The method `(c *Customer) SetName(name)`; returns the receiver and the
heap after the call. -/
def Customer.SetName (c : Customer) (name : String) (h : Heap) :
    Outcome (Customer × Heap) :=
  let (c, h) :=
    if c.person = none then
      let (p, h1) := h.alloc Person.zero
      ({ c with person := some p }, h1)
    else (c, h)
  match c.person with
  | none => .panic .nilDeref
  | some p => .ret (c, h.store p { h.persons p with Name := name })

/-- The method `(c *Customer) GetName()`: `return c.person.Name`. -/
def Customer.GetName (c : Customer) (h : Heap) : Outcome String :=
  match c.person with
  | none => .panic .nilDeref
  | some p => .ret (h.persons p).Name

/-! ## domain/customer/memory/memory.go -/

/-- The type `map[uuid.UUID]aggregate.Customer`: `none` is the nil map. -/
abbrev CustomerMap := Option (UUID → Option Customer)

/-- The expression `make(map[uuid.UUID]aggregate.Customer)`: an empty map. -/
def CustomerMap.make : CustomerMap := some (fun _ => none)

/-- The two-value index expression `v, ok := m[id]`; reading the nil map is
allowed and finds nothing. -/
def CustomerMap.lookup (m : CustomerMap) (id : UUID) : Customer × Bool :=
  match m with
  | none => (Customer.zero, false)
  | some f =>
    match f id with
    | none => (Customer.zero, false)
    | some c => (c, true)

/-- The assignment `m[id] = c`; writing to the nil map panics. -/
def CustomerMap.assign (m : CustomerMap) (id : UUID) (c : Customer) : Outcome CustomerMap :=
  match m with
  | none => .panic .nilMapWrite
  | some f => .ret (some (Function.update f id (some c)))

/-- The struct `memory.MemoryRepository`: the map of customers and the
embedded `sync.Mutex`. -/
structure MemoryRepository where
  customers : CustomerMap
  Mutex : Mutex

/-- The constructor `memory.New()`. -/
def New : MemoryRepository :=
  { customers := CustomerMap.make, Mutex := { locked := false } }

/-- The method `(mr *MemoryRepository) Get(id)`; returns the results and the
receiver after the call. -/
def MemoryRepository.Get (mr : MemoryRepository) (id : UUID) :
    Outcome ((Customer × GoError) × MemoryRepository) :=
  match mr.customers.lookup id with
  | (customer, true) => .ret ((customer, GoError.nil), mr)
  | (_, false) => .ret ((Customer.zero, GoError.sentinel .ErrCustomerNotFound), mr)

/-- The method `(mr *MemoryRepository) Add(c)`; returns the error result and
the receiver after the call. The heap is only read (by `c.GetID()`). -/
def MemoryRepository.Add (mr : MemoryRepository) (c : Customer) (h : Heap) :
    Outcome (GoError × MemoryRepository) := do
  let mr ←
    match mr.customers with
    | none => do
      let mu ← mr.Mutex.Lock
      let mr := { mr with Mutex := mu }
      let mr := { mr with customers := CustomerMap.make }
      let mu ← mr.Mutex.Unlock
      pure { mr with Mutex := mu }
    | some _ => pure mr
  let id ← c.GetID h
  match mr.customers.lookup id with
  | (_, true) =>
    pure (GoError.wrap "customer already exists :" (GoError.sentinel .ErrFailedToAddCustomer), mr)
  | (_, false) =>
    let mu ← mr.Mutex.Lock
    let mr := { mr with Mutex := mu }
    let id ← c.GetID h
    let m ← mr.customers.assign id c
    let mr := { mr with customers := m }
    let mu ← mr.Mutex.Unlock
    let mr := { mr with Mutex := mu }
    pure (GoError.nil, mr)

/-- The method `(mr *MemoryRepository) Update(c)`; returns the error result
and the receiver after the call. The heap is only read (by `c.GetID()`). -/
def MemoryRepository.Update (mr : MemoryRepository) (c : Customer) (h : Heap) :
    Outcome (GoError × MemoryRepository) := do
  let id ← c.GetID h
  match mr.customers.lookup id with
  | (_, false) =>
    pure (GoError.wrap "customer does not exist: " (GoError.sentinel .ErrUpdateCustomer), mr)
  | (_, true) =>
    let mu ← mr.Mutex.Lock
    let mr := { mr with Mutex := mu }
    let id ← c.GetID h
    let m ← mr.customers.assign id c
    let mr := { mr with customers := m }
    let mu ← mr.Mutex.Unlock
    let mr := { mr with Mutex := mu }
    pure (GoError.nil, mr)

/-! ## Vocabulary of the statements -/

/-- The customer owns a Person: its `person` pointer is not nil. -/
def Customer.ownsPerson (c : Customer) : Prop := c.person ≠ none

instance (c : Customer) : Decidable c.ownsPerson := by
  unfold Customer.ownsPerson; infer_instance

/-- The identity `id` is a key of the repository's map. -/
def MemoryRepository.hasKey (mr : MemoryRepository) (id : UUID) : Prop :=
  (mr.customers.lookup id).2 = true

instance (mr : MemoryRepository) (id : UUID) : Decidable (mr.hasKey id) := by
  unfold MemoryRepository.hasKey; infer_instance

/-- The customer `c` is stored under the key `id`. -/
def MemoryRepository.stores (mr : MemoryRepository) (id : UUID) (c : Customer) : Prop :=
  mr.customers.lookup id = (c, true)

/-- The map read as a function from keys to entries (the nil map has none). -/
def CustomerMap.entries (m : CustomerMap) : UUID → Option Customer :=
  match m with
  | none => fun _ => none
  | some f => f

/-- A call of one of the two public mutators of `Customer`. -/
inductive Mutator where
  | SetID (id : UUID)
  | SetName (name : String)
deriving DecidableEq, Repr

/-- Performs one mutator call on a customer variable. -/
def Mutator.apply (m : Mutator) (s : Customer × Heap) : Outcome (Customer × Heap) :=
  match m with
  | .SetID id => s.1.SetID id s.2
  | .SetName name => s.1.SetName name s.2

/-- Performs a sequence of mutator calls, first to last, on one customer
variable. -/
def applyMutators : List Mutator → Customer × Heap → Outcome (Customer × Heap)
  | [], s => .ret s
  | m :: ms, s => (m.apply s).bind (applyMutators ms)

/-- The argument of the last `SetName` of the sequence, or `name` when the
sequence has none. -/
def lastName (name : String) : List Mutator → String
  | [] => name
  | .SetID _ :: ms => lastName name ms
  | .SetName n :: ms => lastName n ms

/-- The caller's program `c, _ := mr.Get(id); c.SetName(name); mr.Get(id)`:
yields the results of the second `Get` with the repository and the heap at
that point. -/
def renameCopyThenGet (mr : MemoryRepository) (id : UUID) (name : String) (h : Heap) :
    Outcome ((Customer × GoError) × MemoryRepository × Heap) := do
  let ((c, _), mr) ← mr.Get id
  let (_, h) ← c.SetName name h
  let (r, mr) ← mr.Get id
  pure (r, mr, h)

/-- The caller's program `c, _ := mr.Get(id); c.SetID(newID); mr.Get(id)`:
yields the results of the second `Get` with the repository and the heap at
that point. -/
def reidentifyCopyThenGet (mr : MemoryRepository) (id newID : UUID) (h : Heap) :
    Outcome ((Customer × GoError) × MemoryRepository × Heap) := do
  let ((c, _), mr) ← mr.Get id
  let (_, h) ← c.SetID newID h
  let (r, mr) ← mr.Get id
  pure (r, mr, h)

/-- An empty heap: nothing allocated yet. -/
def Heap.empty : Heap := { persons := fun _ => Person.zero, next := 0 }

/-- The identity that `memory_test.go` looks up and does not find. -/
def testMissingID : UUID := 0xe628bc45854e4e7e93161876ac570d90

/-- A sample identity drawn by `uuid.New()`. -/
def tedID : UUID := 0x0b1f4a6c2d3e4f508192a3b4c5d6e7f8

/-- The customer that `memory_test.go` builds: `NewCustomer("ted")`. -/
def tedCustomer : Customer := (NewCustomer "ted" tedID Heap.empty).1.1

/-- The heap after `NewCustomer("ted")`. -/
def tedHeap : Heap := (NewCustomer "ted" tedID Heap.empty).2

/-- The repository literal of `memory_test.go`: one entry, `id: cust`. -/
def tedRepo : MemoryRepository :=
  { customers := some (Function.update (fun _ => none) tedID (some tedCustomer)),
    Mutex := { locked := false } }

/-- The test's customer with its item slice set to nil: the same Person,
hence the same identity, in a different `Customer` value. -/
def tedVariant : Customer := { tedCustomer with products := none }

/-- The zero-value `MemoryRepository{}`: nil map, unlocked mutex. -/
def MemoryRepository.zero : MemoryRepository :=
  { customers := none, Mutex := { locked := false } }


/-- A second customer, built after the test's one with the test's other
identity as the value drawn by `uuid.New()`. -/
def otherCustomer : Customer := (NewCustomer "eve" testMissingID tedHeap).1.1

/-- The heap after the second customer was built. -/
def otherHeap : Heap := (NewCustomer "eve" testMissingID tedHeap).2


/-- The repository states, with the heap at that moment, that a sequential
caller can reach from `New()`: by building customers with `NewCustomer` and by
calls of `Get`, `Add` and `Update` that return, where every customer passed in
owns a Person that is an allocated object (`p < h.next`), as every object a Go
pointer refers to is. No setter is called on the way. -/
inductive Reachable : MemoryRepository → Heap → Prop where
  | init (h : Heap) : Reachable New h
  | construct {mr : MemoryRepository} {h : Heap} (name : String) (fresh : UUID) :
      Reachable mr h → Reachable mr (NewCustomer name fresh h).2
  | get {mr : MemoryRepository} {h : Heap} (id : UUID) (r : Customer × GoError)
      (mr1 : MemoryRepository) :
      Reachable mr h → mr.Get id = Outcome.ret (r, mr1) → Reachable mr1 h
  | add {mr : MemoryRepository} {h : Heap} (c : Customer) (p : Ptr) (e : GoError)
      (mr1 : MemoryRepository) :
      Reachable mr h → c.person = some p → p < h.next →
      mr.Add c h = Outcome.ret (e, mr1) → Reachable mr1 h
  | update {mr : MemoryRepository} {h : Heap} (c : Customer) (p : Ptr) (e : GoError)
      (mr1 : MemoryRepository) :
      Reachable mr h → c.person = some p → p < h.next →
      mr.Update c h = Outcome.ret (e, mr1) → Reachable mr1 h

/-- Every entry's key is the identity of the entry's Person, an allocated
object. -/
def KeysAgree (mr : MemoryRepository) (h : Heap) : Prop :=
  ∀ k c, mr.customers.entries k = some c →
    ∃ p, c.person = some p ∧ p < h.next ∧ (h.persons p).ID = k


/-! ## services/order.go -/

/-- The struct `services.OrderService`. Its field holds a value of the
interface `customer.CustomerRepository`: `none` is the nil interface, and `R`
is the type of the repositories it can hold. -/
structure OrderService (R : Type) where
  customers : Option R
deriving DecidableEq, Repr

/-- The type `services.OrderConfiguration`, `func(os *OrderService) error`.
A configuration reads and writes the service it is handed and whatever else
of the program state it can reach (`W`), and returns an error value (a
configuration that panics, or a nil function value, is not covered). -/
abbrev OrderConfiguration (R W : Type) :=
  OrderService R → W → (GoError × OrderService R) × W

/-- The `for _, cfg := range cfgs` loop of `NewOrderService`, from the service
`os` and the program state `w` on. The first result is the `*OrderService`
returned (`none` is the nil pointer). -/
def NewOrderService.loop {R W : Type} :
    List (OrderConfiguration R W) → OrderService R → W →
      (Option (OrderService R) × GoError) × W
  | [], os, w => ((some os, GoError.nil), w)
  | cfg :: cfgs, os, w =>
    match cfg os w with
    | ((err, os1), w1) =>
      if err ≠ GoError.nil then ((none, err), w1)
      else NewOrderService.loop cfgs os1 w1

/-- The constructor `NewOrderService(cfgs...)`. -/
def NewOrderService {R W : Type} (cfgs : List (OrderConfiguration R W)) (w : W) :
    (Option (OrderService R) × GoError) × W :=
  NewOrderService.loop cfgs { customers := none } w

/-- Applies every configuration of the list in order, whatever it returns;
yields the service and the program state at the end. -/
def applyConfigs {R W : Type} :
    List (OrderConfiguration R W) → OrderService R × W → OrderService R × W
  | [], s => s
  | cfg :: cfgs, s => applyConfigs cfgs ((cfg s.1 s.2).1.2, (cfg s.1 s.2).2)

/-- Every configuration of the list returns nil when the list is applied in
order from the service and program state `s`. -/
def allReturnNil {R W : Type} :
    List (OrderConfiguration R W) → OrderService R × W → Prop
  | [], _ => True
  | cfg :: cfgs, s =>
    (cfg s.1 s.2).1.1 = GoError.nil ∧
      allReturnNil cfgs ((cfg s.1 s.2).1.2, (cfg s.1 s.2).2)

/-- A configuration that records `tag` in the program state, sets the
repository to `tag`, and returns nil. -/
def okConfig (tag : String) : OrderConfiguration String (List String) :=
  fun _ w => ((GoError.nil, { customers := some tag }), w ++ [tag])

/-- A configuration that records `tag` in the program state and returns an
error. -/
def failConfig (tag : String) : OrderConfiguration String (List String) :=
  fun os w => ((GoError.wrap tag GoError.nil, os), w ++ [tag])


/-! ## Add, statement by statement

For calls of `Add` that run at the same time on one repository, the body of
`Add` is cut at its statements: a program point is named after the line of
`memory.go` that is executed next. -/

/-- Where a call of `Add` stands: the line of `memory.go` it executes next, or
how it ended. -/
inductive AddPC where
  | line34
  | line35
  | line36
  | line37
  | line40
  | line44
  | line45
  | line46
  | line48
  | returned (e : GoError)
  | panicked (p : Panic)
deriving DecidableEq, Repr

/-- Executes the statement at `pc` of the call `Add(c)`. The result is `none`
when the call cannot move: it has ended, or it waits in `Lock` for a mutex
that is held. -/
def AddPC.step (pc : AddPC) (c : Customer) (h : Heap) (mr : MemoryRepository) :
    Option (AddPC × MemoryRepository) :=
  match pc with
  | .line34 =>
    match mr.customers with
    | none => some (.line35, mr)
    | some _ => some (.line40, mr)
  | .line35 =>
    match mr.Mutex.Lock with
    | .ret mu => some (.line36, { mr with Mutex := mu })
    | .panic p => some (.panicked p, mr)
    | .blocked => none
  | .line36 => some (.line37, { mr with customers := CustomerMap.make })
  | .line37 =>
    match mr.Mutex.Unlock with
    | .ret mu => some (.line40, { mr with Mutex := mu })
    | .panic p => some (.panicked p, mr)
    | .blocked => none
  | .line40 =>
    match c.GetID h with
    | .ret id =>
      match mr.customers.lookup id with
      | (_, true) =>
        some (.returned (GoError.wrap "customer already exists :"
          (GoError.sentinel .ErrFailedToAddCustomer)), mr)
      | (_, false) => some (.line44, mr)
    | .panic p => some (.panicked p, mr)
    | .blocked => none
  | .line44 =>
    match mr.Mutex.Lock with
    | .ret mu => some (.line45, { mr with Mutex := mu })
    | .panic p => some (.panicked p, mr)
    | .blocked => none
  | .line45 =>
    match c.GetID h with
    | .ret id =>
      match mr.customers.assign id c with
      | .ret m => some (.line46, { mr with customers := m })
      | .panic p => some (.panicked p, mr)
      | .blocked => none
    | .panic p => some (.panicked p, mr)
    | .blocked => none
  | .line46 =>
    match mr.Mutex.Unlock with
    | .ret mu => some (.line48, { mr with Mutex := mu })
    | .panic p => some (.panicked p, mr)
    | .blocked => none
  | .line48 => some (.returned GoError.nil, mr)
  | .returned _ => none
  | .panicked _ => none

/-- Runs one call of `Add` on its own, for at most `fuel` statements, from the
program point `pc`. A call that cannot move before it has ended is blocked. -/
def AddPC.run : Nat → AddPC → Customer → Heap → MemoryRepository →
    Outcome (GoError × MemoryRepository)
  | _, .returned e, _, _, mr => .ret (e, mr)
  | _, .panicked p, _, _, _ => .panic p
  | 0, _, _, _, _ => .blocked
  | fuel + 1, pc, c, h, mr =>
    match pc.step c h mr with
    | none => .blocked
    | some (pc1, mr1) => AddPC.run fuel pc1 c h mr1

/-- A call of `Add` in progress: its argument and where it stands. -/
structure AddCall where
  c : Customer
  pc : AddPC
deriving DecidableEq, Repr

/-- Runs calls of `Add` that share one repository under a schedule: each
number of the schedule picks the call that executes its next statement (a
call that cannot move, or a number that picks no call, leaves everything as it
is). -/
def runSchedule : List Nat → List AddCall → Heap → MemoryRepository →
    List AddCall × MemoryRepository
  | [], calls, _, mr => (calls, mr)
  | i :: rest, calls, h, mr =>
    match calls.get? i with
    | none => runSchedule rest calls h mr
    | some call =>
      match call.pc.step call.c h mr with
      | none => runSchedule rest calls h mr
      | some (pc1, mr1) =>
        runSchedule rest (calls.set i { call with pc := pc1 }) h mr1

/-- The schedule in which two calls of `Add` both pass the existence check of
line 40 before either takes the lock of line 44. -/
def raceSchedule : List Nat := [0, 0, 1, 1, 0, 0, 0, 0, 1, 1, 1, 1]

/-- The schedule in which the first call of `Add` ends before the second
starts. -/
def serialSchedule : List Nat := [0, 0, 0, 0, 0, 0, 1, 1, 1, 1, 1, 1]


/-! ## Basic facts -/

theorem lookup_eq_of_some {f : UUID → Option Customer} {id : UUID} {c : Customer}
    (hf : f id = some c) : CustomerMap.lookup (some f) id = (c, true) := by
  simp [CustomerMap.lookup, hf]

theorem lookup_eq_of_none {f : UUID → Option Customer} {id : UUID}
    (hf : f id = none) : CustomerMap.lookup (some f) id = (Customer.zero, false) := by
  simp [CustomerMap.lookup, hf]

theorem lookup_nil (id : UUID) :
    CustomerMap.lookup none id = (Customer.zero, false) := rfl

theorem lookup_snd_false {m : CustomerMap} {id : UUID}
    (hk : (m.lookup id).2 ≠ true) : m.lookup id = (Customer.zero, false) := by
  cases m with
  | none => rfl
  | some f =>
    cases hf : f id with
    | none => exact lookup_eq_of_none hf
    | some c => simp [CustomerMap.lookup, hf] at hk

@[simp] theorem Outcome.ret_bind {α β : Type} (a : α) (f : α → Outcome β) :
    (Outcome.ret a >>= f) = f a := rfl

@[simp] theorem Outcome.pure_eq_ret {α : Type} (a : α) :
    (pure a : Outcome α) = Outcome.ret a := rfl

theorem GetID_of_ownsPerson {c : Customer} (h : Heap) (hown : c.ownsPerson) :
    ∃ id, c.GetID h = Outcome.ret id := by
  unfold Customer.ownsPerson at hown
  cases hp : c.person with
  | none => exact absurd hp hown
  | some p => exact ⟨(h.persons p).ID, by simp [Customer.GetID, hp]⟩

theorem entries_eq_none_of_not_hasKey {mr : MemoryRepository} {id : UUID}
    (hk : ¬ mr.hasKey id) : mr.customers.entries id = none := by
  unfold MemoryRepository.hasKey at hk
  cases hm : mr.customers with
  | none => rfl
  | some f =>
    cases hf : f id with
    | none => simp [CustomerMap.entries, hf]
    | some c => simp [hm, CustomerMap.lookup, hf] at hk

theorem hasKey_iff_entries {mr : MemoryRepository} {id : UUID} :
    mr.hasKey id ↔ ∃ c, mr.customers.entries id = some c := by
  unfold MemoryRepository.hasKey
  cases hm : mr.customers with
  | none => simp [CustomerMap.lookup, CustomerMap.entries]
  | some f =>
    cases hf : f id with
    | none => simp [CustomerMap.lookup, CustomerMap.entries, hf]
    | some c => simp [CustomerMap.lookup, CustomerMap.entries, hf]

/-- Add on an absent identity, mutex free: inserts and returns nil. -/
theorem Add_absent {mr : MemoryRepository} {c : Customer} {h : Heap} {id : UUID}
    (hid : c.GetID h = Outcome.ret id) (hfree : mr.Mutex.locked = false)
    (hk : ¬ mr.hasKey id) :
    mr.Add c h = Outcome.ret (GoError.nil,
      { customers := some (Function.update mr.customers.entries id (some c)),
        Mutex := mr.Mutex }) := by
  obtain ⟨m, mu⟩ := mr
  cases mu with
  | mk l =>
    simp at hfree
    subst hfree
    unfold MemoryRepository.hasKey at hk
    cases m with
    | none =>
      simp [MemoryRepository.Add, Mutex.Lock, Mutex.Unlock, hid, CustomerMap.make,
        CustomerMap.lookup, CustomerMap.assign, CustomerMap.entries]
    | some f =>
      have hl := lookup_snd_false hk
      simp [MemoryRepository.Add, Mutex.Lock, Mutex.Unlock, hid, hl,
        CustomerMap.assign, CustomerMap.entries]

/-- Add on a present identity: reports the wrapped error, changes nothing. -/
theorem Add_present {mr : MemoryRepository} {c : Customer} {h : Heap} {id : UUID}
    (hid : c.GetID h = Outcome.ret id) (hk : mr.hasKey id) :
    mr.Add c h = Outcome.ret
      (GoError.wrap "customer already exists :"
        (GoError.sentinel .ErrFailedToAddCustomer), mr) := by
  obtain ⟨m, mu⟩ := mr
  unfold MemoryRepository.hasKey at hk
  cases m with
  | none => simp [CustomerMap.lookup] at hk
  | some f =>
    cases hf : f id with
    | none => simp [CustomerMap.lookup, hf] at hk
    | some c0 =>
      simp [MemoryRepository.Add, hid, CustomerMap.lookup, hf]

/-- Update on a present identity, mutex free: overwrites and returns nil. -/
theorem Update_present {mr : MemoryRepository} {c : Customer} {h : Heap} {id : UUID}
    (hid : c.GetID h = Outcome.ret id) (hfree : mr.Mutex.locked = false)
    (hk : mr.hasKey id) :
    mr.Update c h = Outcome.ret (GoError.nil,
      { customers := some (Function.update mr.customers.entries id (some c)),
        Mutex := mr.Mutex }) := by
  obtain ⟨m, mu⟩ := mr
  cases mu with
  | mk l =>
    simp at hfree
    subst hfree
    unfold MemoryRepository.hasKey at hk
    cases m with
    | none => simp [CustomerMap.lookup] at hk
    | some f =>
      cases hf : f id with
      | none => simp [CustomerMap.lookup, hf] at hk
      | some c0 =>
        simp [MemoryRepository.Update, Mutex.Lock, Mutex.Unlock, hid,
          CustomerMap.lookup, hf, CustomerMap.assign, CustomerMap.entries]

/-- Update on an absent identity: reports the wrapped error, changes nothing. -/
theorem Update_absent {mr : MemoryRepository} {c : Customer} {h : Heap} {id : UUID}
    (hid : c.GetID h = Outcome.ret id) (hk : ¬ mr.hasKey id) :
    mr.Update c h = Outcome.ret
      (GoError.wrap "customer does not exist: "
        (GoError.sentinel .ErrUpdateCustomer), mr) := by
  have hl := lookup_snd_false hk
  simp [MemoryRepository.Update, hid, hl]

/-- Get on a repository whose map holds `c` under `id`. -/
theorem Get_of_entries {mr : MemoryRepository} {id : UUID} {c : Customer}
    (he : mr.customers.entries id = some c) :
    mr.Get id = Outcome.ret ((c, GoError.nil), mr) := by
  obtain ⟨m, mu⟩ := mr
  cases m with
  | none => simp [CustomerMap.entries] at he
  | some f =>
    simp [CustomerMap.entries] at he
    simp [MemoryRepository.Get, CustomerMap.lookup, he]

/-- Add on an absent identity while the mutex is held: the call blocks. -/
theorem Add_blocked {mr : MemoryRepository} {c : Customer} {h : Heap} {id : UUID}
    (hid : c.GetID h = Outcome.ret id) (hheld : mr.Mutex.locked = true)
    (hk : ¬ mr.hasKey id) : mr.Add c h = Outcome.blocked := by
  obtain ⟨m, mu⟩ := mr
  cases mu with
  | mk l =>
    simp at hheld
    subst hheld
    unfold MemoryRepository.hasKey at hk
    cases m with
    | none => simp [MemoryRepository.Add, Mutex.Lock, bind, Outcome.bind]
    | some f =>
      have hl := lookup_snd_false hk
      simp [MemoryRepository.Add, Mutex.Lock, hid, hl, bind, Outcome.bind]

/-- Update on a present identity while the mutex is held: the call blocks. -/
theorem Update_blocked {mr : MemoryRepository} {c : Customer} {h : Heap} {id : UUID}
    (hid : c.GetID h = Outcome.ret id) (hheld : mr.Mutex.locked = true)
    (hk : mr.hasKey id) : mr.Update c h = Outcome.blocked := by
  obtain ⟨m, mu⟩ := mr
  cases mu with
  | mk l =>
    simp at hheld
    subst hheld
    unfold MemoryRepository.hasKey at hk
    cases m with
    | none => simp [CustomerMap.lookup] at hk
    | some f =>
      cases hf : f id with
      | none => simp [CustomerMap.lookup, hf] at hk
      | some c0 =>
        simp [MemoryRepository.Update, Mutex.Lock, hid, CustomerMap.lookup, hf, bind,
          Outcome.bind]

theorem stores_of_entries {mr : MemoryRepository} {id : UUID} {c : Customer}
    (he : mr.customers.entries id = some c) : mr.stores id c := by
  obtain ⟨m, mu⟩ := mr
  cases m with
  | none => simp [CustomerMap.entries] at he
  | some f =>
    simp [CustomerMap.entries] at he
    simp [MemoryRepository.stores, CustomerMap.lookup, he]

/-- What a successful Add leaves behind, entry by entry. -/
theorem Add_absent_spec {mr : MemoryRepository} {c : Customer} {h : Heap} {id : UUID}
    (hid : c.GetID h = Outcome.ret id) (hfree : mr.Mutex.locked = false)
    (hk : ¬ mr.hasKey id) :
    ∃ mr1, mr.Add c h = Outcome.ret (GoError.nil, mr1) ∧
      mr1.Mutex.locked = false ∧
      mr1.customers.entries id = some c ∧
      ∀ k, k ≠ id → mr1.customers.entries k = mr.customers.entries k := by
  refine ⟨_, Add_absent hid hfree hk, hfree, by simp [CustomerMap.entries], ?_⟩
  intro k hne
  simp [CustomerMap.entries, Function.update, hne]

/-- What a successful Update leaves behind, entry by entry. -/
theorem Update_present_spec {mr : MemoryRepository} {c : Customer} {h : Heap} {id : UUID}
    (hid : c.GetID h = Outcome.ret id) (hfree : mr.Mutex.locked = false)
    (hk : mr.hasKey id) :
    ∃ mr1, mr.Update c h = Outcome.ret (GoError.nil, mr1) ∧
      mr1.Mutex.locked = false ∧
      mr1.customers.entries id = some c ∧
      ∀ k, k ≠ id → mr1.customers.entries k = mr.customers.entries k := by
  refine ⟨_, Update_present hid hfree hk, hfree, by simp [CustomerMap.entries], ?_⟩
  intro k hne
  simp [CustomerMap.entries, Function.update, hne]

/-- Get on a repository whose map has nothing under `id`. -/
theorem Get_of_entries_none {mr : MemoryRepository} {id : UUID}
    (he : mr.customers.entries id = none) :
    mr.Get id = Outcome.ret
      ((Customer.zero, GoError.sentinel .ErrCustomerNotFound), mr) := by
  obtain ⟨m, mu⟩ := mr
  cases m with
  | none => simp [MemoryRepository.Get, CustomerMap.lookup]
  | some f =>
    simp [CustomerMap.entries] at he
    simp [MemoryRepository.Get, CustomerMap.lookup, he]

/-- Get on a stored customer. -/
theorem Get_of_stores (mr : MemoryRepository) (id : UUID) (c : Customer)
    (hst : mr.stores id c) : mr.Get id = Outcome.ret ((c, GoError.nil), mr) := by
  simp [MemoryRepository.stores] at hst
  simp [MemoryRepository.Get, hst]

/-! ## C1 - C2: the factory -/

/-- C1: `NewCustomer(name)` returns a non-nil error exactly when `name` is the
empty string. For the empty name it returns `ErrInvalidPerson` together with
the zero-value `Customer`, which has no Person (so `GetID` has nothing to
return) and leaves the heap alone; for every non-empty name it returns a nil
error and a `Customer` that owns a Person. -/
theorem C1_NewCustomer_fails_iff_empty (name : String) (fresh : UUID) (h : Heap) :
    ((NewCustomer name fresh h).1.2 ≠ GoError.nil ↔ name = "") ∧
    (name = "" →
      NewCustomer name fresh h
        = ((Customer.zero, GoError.sentinel .ErrInvalidPerson), h) ∧
      Customer.zero.person = none ∧
      ¬ Customer.zero.ownsPerson ∧
      Customer.zero.GetID h = Outcome.panic .nilDeref) ∧
    (name ≠ "" →
      (NewCustomer name fresh h).1.2 = GoError.nil ∧
      (NewCustomer name fresh h).1.1.ownsPerson) := by
  by_cases hn : name = ""
  · subst hn
    simp [NewCustomer, Customer.zero, Customer.ownsPerson, Customer.GetID]
  · simp [NewCustomer, hn, Heap.alloc, Customer.ownsPerson]

/-- C1 at the names `""` and `"ted"`. -/
theorem C1_NewCustomer_fails_iff_empty_witness :
    NewCustomer "" 7 Heap.empty
      = ((Customer.zero, GoError.sentinel .ErrInvalidPerson), Heap.empty) ∧
    (NewCustomer "ted" 7 Heap.empty).1.2 = GoError.nil ∧
    (NewCustomer "ted" 7 Heap.empty).1.1.ownsPerson :=
  ⟨((C1_NewCustomer_fails_iff_empty "" 7 Heap.empty).2.1 rfl).1,
   (C1_NewCustomer_fails_iff_empty "ted" 7 Heap.empty).2.2 (by decide)⟩

/-- C2: for every non-empty name, the customer returned by `NewCustomer(name)`
has `GetName()` equal to `name`, `GetID()` equal to the identity drawn from
the generator, a Person of age zero, and item and transaction slices of
length 0. -/
theorem C2_NewCustomer_fields (name : String) (fresh : UUID) (h : Heap)
    (hname : name ≠ "") :
    let r := NewCustomer name fresh h
    r.1.1.GetName r.2 = Outcome.ret name ∧
    r.1.1.GetID r.2 = Outcome.ret fresh ∧
    (∃ p, r.1.1.person = some p ∧ (r.2.persons p).Age = 0) ∧
    sliceLen r.1.1.products = 0 ∧
    sliceLen r.1.1.transaction = 0 := by
  simp [NewCustomer, hname, Heap.alloc, Customer.GetName, Customer.GetID, sliceLen]

/-- C2 at the name `"ted"`. -/
theorem C2_NewCustomer_fields_witness :
    "ted" ≠ "" ∧
    (NewCustomer "ted" 7 Heap.empty).1.1.GetName (NewCustomer "ted" 7 Heap.empty).2
      = Outcome.ret "ted" ∧
    (NewCustomer "ted" 7 Heap.empty).1.1.GetID (NewCustomer "ted" 7 Heap.empty).2
      = Outcome.ret 7 :=
  ⟨by decide,
   (C2_NewCustomer_fields "ted" 7 Heap.empty (by decide)).1,
   (C2_NewCustomer_fields "ted" 7 Heap.empty (by decide)).2.1⟩

/-! ## C3: Get -/

/-- C3: for every repository state and identity, `Get(id)` returns the stored
customer and a nil error when `id` is a key, and the zero-value `Customer`
with `ErrCustomerNotFound` when it is not; in both cases the repository is
left as it was. -/
theorem C3_Get_hit_or_miss (mr : MemoryRepository) (id : UUID) :
    (∀ c, mr.stores id c →
      mr.Get id = Outcome.ret ((c, GoError.nil), mr)) ∧
    (¬ mr.hasKey id →
      mr.Get id
        = Outcome.ret ((Customer.zero, GoError.sentinel .ErrCustomerNotFound), mr)) ∧
    (mr.hasKey id → ∃ c, mr.stores id c) := by
  refine ⟨?_, ?_, ?_⟩
  · intro c hc
    simp [MemoryRepository.stores] at hc
    simp [MemoryRepository.Get, hc]
  · intro hk
    have := lookup_snd_false hk
    simp [MemoryRepository.Get, this]
  · intro hk
    refine ⟨(mr.customers.lookup id).1, ?_⟩
    unfold MemoryRepository.stores MemoryRepository.hasKey at *
    rw [← hk]

/-- C3 on the repository literal of `memory_test.go`: the stored identity is
found, the test's other identity is not. -/
theorem C3_Get_hit_or_miss_witness :
    tedRepo.stores tedID tedCustomer ∧
    tedRepo.Get tedID = Outcome.ret ((tedCustomer, GoError.nil), tedRepo) ∧
    ¬ tedRepo.hasKey testMissingID ∧
    tedRepo.Get testMissingID
      = Outcome.ret ((Customer.zero, GoError.sentinel .ErrCustomerNotFound), tedRepo) :=
  have hst : tedRepo.stores tedID tedCustomer := by
    simp [MemoryRepository.stores, tedRepo, CustomerMap.lookup]
  have hmiss : ¬ tedRepo.hasKey testMissingID := by
    simp [MemoryRepository.hasKey, tedRepo, CustomerMap.lookup, Function.update,
      testMissingID, tedID]
  ⟨hst, (C3_Get_hit_or_miss tedRepo tedID).1 tedCustomer hst,
   hmiss, (C3_Get_hit_or_miss tedRepo testMissingID).2.1 hmiss⟩

/-! ## C4 - C6: Add and Update -/

/-- C4: for every repository state and every customer `c` that owns a Person
(so `c.GetID()` returns some `id`): if no entry exists under `id` and the
mutex is free, `Add(c)` returns nil, the mutex is free again, and `Get(id)`
then returns `c`; if an entry already exists, `Add(c)` returns an error
wrapping `ErrFailedToAddCustomer` and the repository is exactly what it was
before the call. -/
theorem C4_Add_absent_or_present (mr : MemoryRepository) (c : Customer) (h : Heap)
    (hown : c.ownsPerson) :
    ∃ id, c.GetID h = Outcome.ret id ∧
      (¬ mr.hasKey id → mr.Mutex.locked = false →
        ∃ mr1, mr.Add c h = Outcome.ret (GoError.nil, mr1) ∧
          mr1.Mutex.locked = false ∧
          mr1.Get id = Outcome.ret ((c, GoError.nil), mr1)) ∧
      (mr.hasKey id →
        ∃ e, mr.Add c h = Outcome.ret (e, mr) ∧
          e ≠ GoError.nil ∧
          e.Is .ErrFailedToAddCustomer = true) := by
  obtain ⟨id, hid⟩ := GetID_of_ownsPerson h hown
  refine ⟨id, hid, ?_, ?_⟩
  · intro hk hfree
    refine ⟨_, Add_absent hid hfree hk, hfree, ?_⟩
    exact Get_of_entries (by simp [CustomerMap.entries])
  · intro hk
    exact ⟨_, Add_present hid hk, by simp, by simp [GoError.Is]⟩

/-- C5: for every repository state and every customer `c` that owns a Person
(so `c.GetID()` returns some `id`): if an entry exists under `id` and the
mutex is free, `Update(c)` returns nil, the mutex is free again, and `Get(id)`
then returns exactly `c`; if no entry exists, `Update(c)` returns an error
wrapping `ErrUpdateCustomer`, the repository is unchanged and still has no
entry under `id`. -/
theorem C5_Update_present_or_absent (mr : MemoryRepository) (c : Customer) (h : Heap)
    (hown : c.ownsPerson) :
    ∃ id, c.GetID h = Outcome.ret id ∧
      (mr.hasKey id → mr.Mutex.locked = false →
        ∃ mr1, mr.Update c h = Outcome.ret (GoError.nil, mr1) ∧
          mr1.Mutex.locked = false ∧
          mr1.Get id = Outcome.ret ((c, GoError.nil), mr1)) ∧
      (¬ mr.hasKey id →
        ∃ e, mr.Update c h = Outcome.ret (e, mr) ∧
          e ≠ GoError.nil ∧
          e.Is .ErrUpdateCustomer = true ∧
          mr.Get id = Outcome.ret
            ((Customer.zero, GoError.sentinel .ErrCustomerNotFound), mr)) := by
  obtain ⟨id, hid⟩ := GetID_of_ownsPerson h hown
  refine ⟨id, hid, ?_, ?_⟩
  · intro hk hfree
    refine ⟨_, Update_present hid hfree hk, hfree, ?_⟩
    exact Get_of_entries (by simp [CustomerMap.entries])
  · intro hk
    exact ⟨_, Update_absent hid hk, by simp, by simp [GoError.Is],
      Get_of_entries_none (entries_eq_none_of_not_hasKey hk)⟩

/-- C6: for every repository in which `id` is absent (mutex free) and every
two customers `c` and `c2` whose `GetID()` is `id` (each read in the heap of
its own call): `Add(c)` and then `Update(c2)` both return nil, and `Get(id)`
afterwards returns `c2`; when `c2` differs from `c`, it does not return `c`. -/
theorem C6_Get_reflects_last_write (mr : MemoryRepository) (id : UUID)
    (c c2 : Customer) (h h2 : Heap)
    (hk : ¬ mr.hasKey id) (hfree : mr.Mutex.locked = false)
    (hid : c.GetID h = Outcome.ret id) (hid2 : c2.GetID h2 = Outcome.ret id) :
    ∃ mr1 mr2,
      mr.Add c h = Outcome.ret (GoError.nil, mr1) ∧
      mr1.Update c2 h2 = Outcome.ret (GoError.nil, mr2) ∧
      mr2.Get id = Outcome.ret ((c2, GoError.nil), mr2) ∧
      (c2 ≠ c → mr2.Get id ≠ Outcome.ret ((c, GoError.nil), mr2)) := by
  obtain ⟨mr1, hadd, hfree1, he1, _⟩ := Add_absent_spec hid hfree hk
  have hk1 : mr1.hasKey id := hasKey_iff_entries.mpr ⟨c, he1⟩
  obtain ⟨mr2, hupd, _, he2, _⟩ := Update_present_spec hid2 hfree1 hk1
  have hget := Get_of_entries he2
  refine ⟨mr1, mr2, hadd, hupd, hget, ?_⟩
  intro hne hc
  rw [hget] at hc
  simp at hc
  exact hne hc

/-- C4 on the test's customer: added to the empty repository of `New()`, and
added again to the repository that already holds it. -/
theorem C4_Add_absent_or_present_witness :
    tedCustomer.ownsPerson ∧
    (∃ mr1, New.Add tedCustomer tedHeap = Outcome.ret (GoError.nil, mr1) ∧
      mr1.Mutex.locked = false ∧
      mr1.Get tedID = Outcome.ret ((tedCustomer, GoError.nil), mr1)) ∧
    (∃ e, tedRepo.Add tedCustomer tedHeap = Outcome.ret (e, tedRepo) ∧
      e ≠ GoError.nil ∧ e.Is .ErrFailedToAddCustomer = true) := by
  have hown : tedCustomer.ownsPerson := by decide
  have hget : tedCustomer.GetID tedHeap = Outcome.ret tedID := by
    simp [Customer.GetID, tedCustomer, tedHeap, NewCustomer, Heap.alloc, Heap.empty]
  refine ⟨hown, ?_, ?_⟩
  · obtain ⟨id, hid, habs, _⟩ := C4_Add_absent_or_present New tedCustomer tedHeap hown
    rw [hget] at hid
    injection hid with hid
    subst hid
    exact habs (by simp [MemoryRepository.hasKey, New, CustomerMap.make,
      CustomerMap.lookup]) rfl
  · obtain ⟨id, hid, _, hpres⟩ :=
      C4_Add_absent_or_present tedRepo tedCustomer tedHeap hown
    rw [hget] at hid
    injection hid with hid
    subst hid
    exact hpres (by simp [MemoryRepository.hasKey, tedRepo, CustomerMap.lookup])

/-- C5 on the test's customer: updated in the repository that holds it, and
in the empty repository of `New()`. -/
theorem C5_Update_present_or_absent_witness :
    tedCustomer.ownsPerson ∧
    (∃ mr1, tedRepo.Update tedCustomer tedHeap = Outcome.ret (GoError.nil, mr1) ∧
      mr1.Mutex.locked = false ∧
      mr1.Get tedID = Outcome.ret ((tedCustomer, GoError.nil), mr1)) ∧
    (∃ e, New.Update tedCustomer tedHeap = Outcome.ret (e, New) ∧
      e ≠ GoError.nil ∧ e.Is .ErrUpdateCustomer = true ∧
      New.Get tedID = Outcome.ret
        ((Customer.zero, GoError.sentinel .ErrCustomerNotFound), New)) := by
  have hown : tedCustomer.ownsPerson := by decide
  have hget : tedCustomer.GetID tedHeap = Outcome.ret tedID := by
    simp [Customer.GetID, tedCustomer, tedHeap, NewCustomer, Heap.alloc, Heap.empty]
  refine ⟨hown, ?_, ?_⟩
  · obtain ⟨id, hid, hpres, _⟩ :=
      C5_Update_present_or_absent tedRepo tedCustomer tedHeap hown
    rw [hget] at hid
    injection hid with hid
    subst hid
    exact hpres (by simp [MemoryRepository.hasKey, tedRepo, CustomerMap.lookup]) rfl
  · obtain ⟨id, hid, _, habs⟩ := C5_Update_present_or_absent New tedCustomer tedHeap hown
    rw [hget] at hid
    injection hid with hid
    subst hid
    exact habs (by simp [MemoryRepository.hasKey, New, CustomerMap.make,
      CustomerMap.lookup])

/-- C6 on the empty repository: the test's customer is added, then replaced by
a customer with the same Person and a nil item slice. -/
theorem C6_Get_reflects_last_write_witness :
    ¬ New.hasKey tedID ∧ New.Mutex.locked = false ∧
    tedCustomer.GetID tedHeap = Outcome.ret tedID ∧
    tedVariant.GetID tedHeap = Outcome.ret tedID ∧
    tedVariant ≠ tedCustomer ∧
    ∃ mr1 mr2,
      New.Add tedCustomer tedHeap = Outcome.ret (GoError.nil, mr1) ∧
      mr1.Update tedVariant tedHeap = Outcome.ret (GoError.nil, mr2) ∧
      mr2.Get tedID = Outcome.ret ((tedVariant, GoError.nil), mr2) ∧
      (tedVariant ≠ tedCustomer →
        mr2.Get tedID ≠ Outcome.ret ((tedCustomer, GoError.nil), mr2)) :=
  have hk : ¬ New.hasKey tedID := by
    simp [MemoryRepository.hasKey, New, CustomerMap.make, CustomerMap.lookup]
  have hid : tedCustomer.GetID tedHeap = Outcome.ret tedID := by
    simp [Customer.GetID, tedCustomer, tedHeap, NewCustomer, Heap.alloc, Heap.empty]
  have hid2 : tedVariant.GetID tedHeap = Outcome.ret tedID := by
    simp [Customer.GetID, tedVariant, tedCustomer, tedHeap, NewCustomer, Heap.alloc,
      Heap.empty]
  ⟨hk, rfl, hid, hid2, by decide,
   C6_Get_reflects_last_write New tedID tedCustomer tedVariant tedHeap tedHeap
     hk rfl hid hid2⟩

/-! ## C7: what Get hands out -/

theorem SetName_of_person {c : Customer} {p : Ptr} (hp : c.person = some p)
    (name : String) (h : Heap) :
    c.SetName name h
      = Outcome.ret (c, h.store p { h.persons p with Name := name }) := by
  simp [Customer.SetName, hp]

theorem SetID_of_person {c : Customer} {p : Ptr} (hp : c.person = some p)
    (id : UUID) (h : Heap) :
    c.SetID id h = Outcome.ret (c, h.store p { h.persons p with ID := id }) := by
  simp [Customer.SetID, hp]

/-- C7 (counterexample): the repository of `memory_test.go` holds the customer
named "ted". Renaming the customer returned by `Get` to "bob", with no
`Update`, makes the customer returned by a later `Get` answer "bob" to
`GetName()`, where it answered "ted" before. -/
theorem C7_counterexample :
    tedRepo.Get tedID = Outcome.ret ((tedCustomer, GoError.nil), tedRepo) ∧
    tedCustomer.GetName tedHeap = Outcome.ret "ted" ∧
    ((renameCopyThenGet tedRepo tedID "bob" tedHeap).bind
      fun r => r.1.1.GetName r.2.2) = Outcome.ret "bob" := by
  refine ⟨?_, ?_, ?_⟩
  · simp [MemoryRepository.Get, tedRepo, CustomerMap.lookup]
  · simp [Customer.GetName, tedCustomer, tedHeap, NewCustomer, Heap.alloc, Heap.empty]
  · simp [renameCopyThenGet, MemoryRepository.Get, tedRepo, CustomerMap.lookup,
      Customer.SetName, Customer.GetName, tedCustomer, tedHeap, NewCustomer,
      Heap.alloc, Heap.empty, Heap.store, Outcome.bind]

/-- C7 (amended): `Get` hands out a copy of the `Customer` struct that shares
its Person with the stored entry. For every repository and every customer `c`
stored under `id`, after `SetName` or `SetID` on the customer returned by
`Get(id)` the repository is unchanged and a later `Get(id)` returns the same
struct `c` with a nil error; when `c` owns a Person the change is nevertheless
visible through that later result (its `GetName()` is the new name, or its
`GetID()` the new identity, the other field being untouched); when `c` has no
Person the setter allocates one for the copy alone and the later result still
has none. -/
theorem C7_Get_returns_shallow_copy (mr : MemoryRepository) (id : UUID) (c : Customer)
    (h : Heap) (name : String) (newID : UUID) (hst : mr.stores id c) :
    (∃ h1, renameCopyThenGet mr id name h = Outcome.ret ((c, GoError.nil), mr, h1) ∧
      (c.ownsPerson → c.GetName h1 = Outcome.ret name ∧ c.GetID h1 = c.GetID h) ∧
      (¬ c.ownsPerson → c.GetName h1 = c.GetName h ∧ c.GetID h1 = c.GetID h)) ∧
    (∃ h2, reidentifyCopyThenGet mr id newID h = Outcome.ret ((c, GoError.nil), mr, h2) ∧
      (c.ownsPerson → c.GetID h2 = Outcome.ret newID ∧ c.GetName h2 = c.GetName h) ∧
      (¬ c.ownsPerson → c.GetID h2 = c.GetID h ∧ c.GetName h2 = c.GetName h)) := by
  have hget : mr.Get id = Outcome.ret ((c, GoError.nil), mr) :=
    Get_of_stores mr id c hst
  cases hp : c.person with
  | none =>
    constructor
    · refine ⟨(h.alloc Person.zero).2.store (h.alloc Person.zero).1
        { ((h.alloc Person.zero).2.persons (h.alloc Person.zero).1) with Name := name },
        ?_, ?_, ?_⟩
      · simp [renameCopyThenGet, hget, Customer.SetName, hp, Heap.alloc, Heap.store]
      · intro hown; exact absurd hp hown
      · intro _; simp [Customer.GetName, Customer.GetID, hp]
    · refine ⟨(h.alloc Person.zero).2.store (h.alloc Person.zero).1
        { ((h.alloc Person.zero).2.persons (h.alloc Person.zero).1) with ID := newID },
        ?_, ?_, ?_⟩
      · simp [reidentifyCopyThenGet, hget, Customer.SetID, hp, Heap.alloc, Heap.store]
      · intro hown; exact absurd hp hown
      · intro _; simp [Customer.GetName, Customer.GetID, hp]
  | some p =>
    constructor
    · refine ⟨h.store p { h.persons p with Name := name }, ?_, ?_, ?_⟩
      · simp [renameCopyThenGet, hget, SetName_of_person hp]
      · intro _; simp [Customer.GetName, Customer.GetID, hp, Heap.store]
      · intro hown; exact absurd (by simp [Customer.ownsPerson, hp]) hown
    · refine ⟨h.store p { h.persons p with ID := newID }, ?_, ?_, ?_⟩
      · simp [reidentifyCopyThenGet, hget, SetID_of_person hp]
      · intro _; simp [Customer.GetName, Customer.GetID, hp, Heap.store]
      · intro hown; exact absurd (by simp [Customer.ownsPerson, hp]) hown

/-- C7 (amended) on the repository of `memory_test.go`, renaming to "bob" and
re-identifying to the test's other identity. -/
theorem C7_Get_returns_shallow_copy_witness :
    tedRepo.stores tedID tedCustomer ∧ tedCustomer.ownsPerson ∧
    (∃ h1, renameCopyThenGet tedRepo tedID "bob" tedHeap
        = Outcome.ret ((tedCustomer, GoError.nil), tedRepo, h1) ∧
      tedCustomer.GetName h1 = Outcome.ret "bob") ∧
    (∃ h2, reidentifyCopyThenGet tedRepo tedID testMissingID tedHeap
        = Outcome.ret ((tedCustomer, GoError.nil), tedRepo, h2) ∧
      tedCustomer.GetID h2 = Outcome.ret testMissingID) := by
  have hst : tedRepo.stores tedID tedCustomer := by
    simp [MemoryRepository.stores, tedRepo, CustomerMap.lookup]
  have hown : tedCustomer.ownsPerson := by decide
  obtain ⟨⟨h1, hr1, ho1, _⟩, ⟨h2, hr2, ho2, _⟩⟩ :=
    C7_Get_returns_shallow_copy tedRepo tedID tedCustomer tedHeap "bob" testMissingID hst
  exact ⟨hst, hown, ⟨h1, hr1, (ho1 hown).1⟩, ⟨h2, hr2, (ho2 hown).1⟩⟩

/-! ## C8: the name after construction -/

theorem applyMutators_of_person {c : Customer} {p : Ptr} (hp : c.person = some p)
    (ms : List Mutator) (h : Heap) :
    ∃ h1, applyMutators ms (c, h) = Outcome.ret (c, h1) ∧
      (h1.persons p).Name = lastName (h.persons p).Name ms := by
  induction ms generalizing h with
  | nil => exact ⟨h, rfl, rfl⟩
  | cons m ms ih =>
    cases m with
    | SetID id =>
      obtain ⟨h1, hrun, hname⟩ := ih (h.store p { h.persons p with ID := id })
      refine ⟨h1, ?_, ?_⟩
      · simp [applyMutators, Mutator.apply, SetID_of_person hp, Outcome.bind, hrun]
      · simpa [lastName, Heap.store] using hname
    | SetName n =>
      obtain ⟨h1, hrun, hname⟩ := ih (h.store p { h.persons p with Name := n })
      refine ⟨h1, ?_, ?_⟩
      · simp [applyMutators, Mutator.apply, SetName_of_person hp, Outcome.bind, hrun]
      · simpa [lastName, Heap.store] using hname

theorem lastName_ne_empty (ms : List Mutator) :
    ∀ name : String, name ≠ "" → (∀ n, Mutator.SetName n ∈ ms → n ≠ "") →
      lastName name ms ≠ "" := by
  induction ms with
  | nil => intro name hname _; simpa [lastName] using hname
  | cons m ms ih =>
    intro name hname hall
    cases m with
    | SetID id =>
      simp only [lastName]
      exact ih name hname (fun n hn => hall n (List.mem_cons_of_mem _ hn))
    | SetName n =>
      simp only [lastName]
      exact ih n (hall n (List.mem_cons_self _ _))
        (fun k hk => hall k (List.mem_cons_of_mem _ hk))

/-- C8 (counterexample): `NewCustomer("ted")` succeeds, and after the single
mutator call `SetName("")` on the returned customer `GetName()` returns the
empty string. -/
theorem C8_counterexample :
    "ted" ≠ "" ∧
    (NewCustomer "ted" tedID Heap.empty).1.2 = GoError.nil ∧
    ((applyMutators [Mutator.SetName ""]
        ((NewCustomer "ted" tedID Heap.empty).1.1, (NewCustomer "ted" tedID Heap.empty).2)).bind
      fun s => s.1.GetName s.2) = Outcome.ret "" := by
  refine ⟨by decide, ?_, ?_⟩
  · simp [NewCustomer]
  · simp [applyMutators, Mutator.apply, Customer.SetName, Customer.GetName, NewCustomer,
      Heap.alloc, Heap.empty, Heap.store, Outcome.bind]

/-- C8 (amended): for every non-empty name and every finite sequence of
`SetID` and `SetName` calls on the customer returned by `NewCustomer(name)`,
all calls return and `GetName()` then returns the argument of the last
`SetName` (or `name` if there is none); so the name is non-empty right after
construction, and stays non-empty whenever every `SetName` argument of the
sequence is non-empty. -/
theorem C8_name_after_mutators (name : String) (fresh : UUID) (h : Heap)
    (ms : List Mutator) (hname : name ≠ "") :
    ∃ c h1,
      applyMutators ms ((NewCustomer name fresh h).1.1, (NewCustomer name fresh h).2)
        = Outcome.ret (c, h1) ∧
      c.GetName h1 = Outcome.ret (lastName name ms) ∧
      ((∀ n, Mutator.SetName n ∈ ms → n ≠ "") → lastName name ms ≠ "") := by
  have hp : (NewCustomer name fresh h).1.1.person = some h.next := by
    simp [NewCustomer, hname, Heap.alloc]
  obtain ⟨h1, hrun, hlast⟩ := applyMutators_of_person hp ms (NewCustomer name fresh h).2
  refine ⟨_, h1, hrun, ?_, lastName_ne_empty ms name hname⟩
  have hstart : ((NewCustomer name fresh h).2.persons h.next).Name = name := by
    simp [NewCustomer, hname, Heap.alloc]
  simp [Customer.GetName, hp, hlast, hstart]

/-- C8 (amended) on `NewCustomer("ted")` followed by `SetName("bob")`,
`SetID`, `SetName("eve")`. -/
theorem C8_name_after_mutators_witness :
    "ted" ≠ "" ∧
    ∃ c h1,
      applyMutators
          [Mutator.SetName "bob", Mutator.SetID testMissingID, Mutator.SetName "eve"]
          ((NewCustomer "ted" tedID Heap.empty).1.1, (NewCustomer "ted" tedID Heap.empty).2)
        = Outcome.ret (c, h1) ∧
      c.GetName h1 = Outcome.ret "eve" := by
  obtain ⟨c, h1, hrun, hget, _⟩ := C8_name_after_mutators "ted" tedID Heap.empty
    [Mutator.SetName "bob", Mutator.SetID testMissingID, Mutator.SetName "eve"]
    (by decide)
  exact ⟨by decide, c, h1, hrun, by simpa [lastName] using hget⟩

/-! ## C9: the scenario of the test, for every repository -/

/-- C9: for every repository in which `X` is absent (mutex free) and every
customer `c` whose `GetID()` is `X`: `Add(c)` returns nil; `Get(X)` then
returns `c` itself, so with the name it had; `Get(Y)` fails with
`ErrCustomerNotFound` for every `Y` that is not a key (and every `Y` other
than `X` that was not a key before still is not); a second `Add(c)` returns
an error wrapping `ErrFailedToAddCustomer` and leaves the repository as it
was, with `c` stored under `X`. -/
theorem C9_add_get_add_again (mr : MemoryRepository) (X : UUID) (c : Customer)
    (h : Heap) (hk : ¬ mr.hasKey X) (hfree : mr.Mutex.locked = false)
    (hid : c.GetID h = Outcome.ret X) :
    ∃ mr1, mr.Add c h = Outcome.ret (GoError.nil, mr1) ∧
      (∃ r, mr1.Get X = Outcome.ret ((r, GoError.nil), mr1) ∧ r = c ∧
        r.GetName h = c.GetName h) ∧
      (∀ Y, ¬ mr1.hasKey Y →
        mr1.Get Y = Outcome.ret
          ((Customer.zero, GoError.sentinel .ErrCustomerNotFound), mr1)) ∧
      (∀ Y, Y ≠ X → ¬ mr.hasKey Y → ¬ mr1.hasKey Y) ∧
      (∃ e, mr1.Add c h = Outcome.ret (e, mr1) ∧ e ≠ GoError.nil ∧
        e.Is .ErrFailedToAddCustomer = true ∧ mr1.stores X c) := by
  obtain ⟨mr1, hadd, _, he1, hother⟩ := Add_absent_spec hid hfree hk
  have hk1 : mr1.hasKey X := hasKey_iff_entries.mpr ⟨c, he1⟩
  refine ⟨mr1, hadd, ⟨c, Get_of_entries he1, rfl, rfl⟩, ?_, ?_, ?_⟩
  · intro Y hY
    exact Get_of_entries_none (entries_eq_none_of_not_hasKey hY)
  · intro Y hne hY hY1
    obtain ⟨c0, hc0⟩ := hasKey_iff_entries.mp hY1
    rw [hother Y hne] at hc0
    exact hY (hasKey_iff_entries.mpr ⟨c0, hc0⟩)
  · refine ⟨_, Add_present hid hk1, by simp, by simp [GoError.Is], ?_⟩
    exact stores_of_entries he1

/-- C9 on the customer named "ted" of `memory_test.go`, added to the empty
repository, with the test's other identity as `Y`. -/
theorem C9_add_get_add_again_witness :
    ¬ New.hasKey tedID ∧ New.Mutex.locked = false ∧
    tedCustomer.GetID tedHeap = Outcome.ret tedID ∧
    tedCustomer.GetName tedHeap = Outcome.ret "ted" ∧
    ∃ mr1, New.Add tedCustomer tedHeap = Outcome.ret (GoError.nil, mr1) ∧
      mr1.Get tedID = Outcome.ret ((tedCustomer, GoError.nil), mr1) ∧
      mr1.Get testMissingID = Outcome.ret
        ((Customer.zero, GoError.sentinel .ErrCustomerNotFound), mr1) ∧
      (∃ e, mr1.Add tedCustomer tedHeap = Outcome.ret (e, mr1) ∧
        e.Is .ErrFailedToAddCustomer = true) := by
  have hk : ¬ New.hasKey tedID := by
    simp [MemoryRepository.hasKey, New, CustomerMap.make, CustomerMap.lookup]
  have hk2 : ¬ New.hasKey testMissingID := by
    simp [MemoryRepository.hasKey, New, CustomerMap.make, CustomerMap.lookup]
  have hid : tedCustomer.GetID tedHeap = Outcome.ret tedID := by
    simp [Customer.GetID, tedCustomer, tedHeap, NewCustomer, Heap.alloc, Heap.empty]
  have hnm : tedCustomer.GetName tedHeap = Outcome.ret "ted" := by
    simp [Customer.GetName, tedCustomer, tedHeap, NewCustomer, Heap.alloc, Heap.empty]
  obtain ⟨mr1, hadd, ⟨r, hget, hr, _⟩, hmiss, hkeep, ⟨e, hagain, _, his, _⟩⟩ :=
    C9_add_get_add_again New tedID tedCustomer tedHeap hk rfl hid
  subst hr
  exact ⟨hk, rfl, hid, hnm, mr1, hadd, hget,
    hmiss testMissingID (hkeep testMissingID (by decide) hk2), e, hagain, his⟩

/-! ## C10: no panic on well-formed input -/

/-- C10: for every repository state (nil map included, mutex held or free),
every identity and every customer that owns a Person: `Get` returns; `Add` and
`Update` never panic (no nil dereference, no write to a nil map, no unlock of
an unlocked mutex); and when the mutex is free at the call, `Add` and `Update`
return, with a nil or non-nil error value. Every customer returned by a
successful `NewCustomer` owns a Person. -/
theorem C10_repository_never_panics (mr : MemoryRepository) (id : UUID) (c : Customer)
    (h : Heap) (hown : c.ownsPerson) :
    (mr.Get id).returns = true ∧
    (mr.Add c h).panics = false ∧
    (mr.Update c h).panics = false ∧
    (mr.Mutex.locked = false →
      (∃ e mr1, mr.Add c h = Outcome.ret (e, mr1)) ∧
      (∃ e mr1, mr.Update c h = Outcome.ret (e, mr1))) ∧
    (∀ name fresh h0, (NewCustomer name fresh h0).1.2 = GoError.nil →
      (NewCustomer name fresh h0).1.1.ownsPerson) := by
  obtain ⟨cid, hid⟩ := GetID_of_ownsPerson h hown
  refine ⟨?_, ?_, ?_, ?_, ?_⟩
  · unfold MemoryRepository.Get
    split <;> rfl
  · by_cases hk : mr.hasKey cid
    · rw [Add_present hid hk]; rfl
    · by_cases hfree : mr.Mutex.locked = false
      · rw [Add_absent hid hfree hk]; rfl
      · rw [Add_blocked hid (by simpa using hfree) hk]; rfl
  · by_cases hk : mr.hasKey cid
    · by_cases hfree : mr.Mutex.locked = false
      · rw [Update_present hid hfree hk]; rfl
      · rw [Update_blocked hid (by simpa using hfree) hk]; rfl
    · rw [Update_absent hid hk]; rfl
  · intro hfree
    constructor
    · by_cases hk : mr.hasKey cid
      · exact ⟨_, _, Add_present hid hk⟩
      · exact ⟨_, _, Add_absent hid hfree hk⟩
    · by_cases hk : mr.hasKey cid
      · exact ⟨_, _, Update_present hid hfree hk⟩
      · exact ⟨_, _, Update_absent hid hk⟩
  · intro name fresh h0 herr
    by_cases hn : name = ""
    · simp [NewCustomer, hn] at herr
    · simp [NewCustomer, hn, Heap.alloc, Customer.ownsPerson]

/-- C10 on the zero-value repository (nil map) and the test's customer. -/
theorem C10_repository_never_panics_witness :
    tedCustomer.ownsPerson ∧
    (MemoryRepository.zero.Get tedID).returns = true ∧
    (∃ e mr1, MemoryRepository.zero.Add tedCustomer tedHeap = Outcome.ret (e, mr1)) ∧
    (∃ e mr1, MemoryRepository.zero.Update tedCustomer tedHeap = Outcome.ret (e, mr1)) :=
  have hown : tedCustomer.ownsPerson := by decide
  have hall := C10_repository_never_panics MemoryRepository.zero tedID tedCustomer
    tedHeap hown
  ⟨hown, hall.1, (hall.2.2.2.1 rfl).1, (hall.2.2.2.1 rfl).2⟩

/-! ## C11: no transition removes an entry -/

theorem hasKey_insert (m : CustomerMap) (mu : Mutex) (cid k : UUID) (c : Customer) :
    MemoryRepository.hasKey
        { customers := some (Function.update m.entries cid (some c)), Mutex := mu } k
      ↔ (k = cid ∨ ∃ c0, m.entries k = some c0) := by
  rw [hasKey_iff_entries]
  by_cases hk : k = cid
  · subst hk
    simp [CustomerMap.entries]
  · simp [CustomerMap.entries, Function.update, hk]

/-- Add with a customer that has no Person never returns. -/
theorem Add_of_no_person (mr : MemoryRepository) {c : Customer} (h : Heap)
    (hno : c.person = none) :
    (mr.customers = none ∧ mr.Mutex.locked = true → mr.Add c h = Outcome.blocked) ∧
    (mr.customers ≠ none ∨ mr.Mutex.locked = false →
      mr.Add c h = Outcome.panic .nilDeref) := by
  obtain ⟨m, mu⟩ := mr
  cases mu with
  | mk l =>
    cases m with
    | none =>
      cases l <;>
        simp [MemoryRepository.Add, Mutex.Lock, Mutex.Unlock, Customer.GetID, hno,
          bind, Outcome.bind]
    | some f =>
      simp [MemoryRepository.Add, Customer.GetID, hno, bind, Outcome.bind]

/-- Update with a customer that has no Person panics at `c.GetID()`. -/
theorem Update_of_no_person (mr : MemoryRepository) {c : Customer} (h : Heap)
    (hno : c.person = none) : mr.Update c h = Outcome.panic .nilDeref := by
  simp [MemoryRepository.Update, Customer.GetID, hno, bind, Outcome.bind]

/-- If Add returns, the customer's identity was readable. -/
theorem GetID_of_Add_ret {mr mr1 : MemoryRepository} {c : Customer} {h : Heap}
    {e : GoError} (hret : mr.Add c h = Outcome.ret (e, mr1)) :
    ∃ cid, c.GetID h = Outcome.ret cid := by
  cases hp : c.person with
  | none =>
    have hno := Add_of_no_person mr h hp
    by_cases hc : mr.customers = none ∧ mr.Mutex.locked = true
    · rw [hno.1 hc] at hret; cases hret
    · have : mr.customers ≠ none ∨ mr.Mutex.locked = false := by
        by_cases hm : mr.customers = none
        · right; simpa [hm] using hc
        · left; exact hm
      rw [hno.2 this] at hret; cases hret
  | some p => exact ⟨(h.persons p).ID, by simp [Customer.GetID, hp]⟩

/-- If Update returns, the customer's identity was readable. -/
theorem GetID_of_Update_ret {mr mr1 : MemoryRepository} {c : Customer} {h : Heap}
    {e : GoError} (hret : mr.Update c h = Outcome.ret (e, mr1)) :
    ∃ cid, c.GetID h = Outcome.ret cid := by
  cases hp : c.person with
  | none => rw [Update_of_no_person mr h hp] at hret; cases hret
  | some p => exact ⟨(h.persons p).ID, by simp [Customer.GetID, hp]⟩

/-- The three ways a returning Add can end. -/
theorem Add_ret_cases {mr mr1 : MemoryRepository} {c : Customer} {h : Heap}
    {e : GoError} {cid : UUID} (hid : c.GetID h = Outcome.ret cid)
    (hret : mr.Add c h = Outcome.ret (e, mr1)) :
    (mr.hasKey cid ∧ mr1 = mr ∧
      e = GoError.wrap "customer already exists :"
        (GoError.sentinel .ErrFailedToAddCustomer)) ∨
    (¬ mr.hasKey cid ∧ mr.Mutex.locked = false ∧ e = GoError.nil ∧
      mr1 = { customers := some (Function.update mr.customers.entries cid (some c)),
              Mutex := mr.Mutex }) := by
  by_cases hk : mr.hasKey cid
  · rw [Add_present hid hk] at hret
    injection hret with hret
    injection hret with he hm
    exact Or.inl ⟨hk, hm.symm, he.symm⟩
  · by_cases hfree : mr.Mutex.locked = false
    · rw [Add_absent hid hfree hk] at hret
      injection hret with hret
      injection hret with he hm
      exact Or.inr ⟨hk, hfree, he.symm, hm.symm⟩
    · rw [Add_blocked hid (by simpa using hfree) hk] at hret
      cases hret

/-- The two ways a returning Update can end. -/
theorem Update_ret_cases {mr mr1 : MemoryRepository} {c : Customer} {h : Heap}
    {e : GoError} {cid : UUID} (hid : c.GetID h = Outcome.ret cid)
    (hret : mr.Update c h = Outcome.ret (e, mr1)) :
    (¬ mr.hasKey cid ∧ mr1 = mr ∧
      e = GoError.wrap "customer does not exist: "
        (GoError.sentinel .ErrUpdateCustomer)) ∨
    (mr.hasKey cid ∧ mr.Mutex.locked = false ∧ e = GoError.nil ∧
      mr1 = { customers := some (Function.update mr.customers.entries cid (some c)),
              Mutex := mr.Mutex }) := by
  by_cases hk : mr.hasKey cid
  · by_cases hfree : mr.Mutex.locked = false
    · rw [Update_present hid hfree hk] at hret
      injection hret with hret
      injection hret with he hm
      exact Or.inr ⟨hk, hfree, he.symm, hm.symm⟩
    · rw [Update_blocked hid (by simpa using hfree) hk] at hret
      cases hret
  · rw [Update_absent hid hk] at hret
    injection hret with hret
    injection hret with he hm
    exact Or.inl ⟨hk, hm.symm, he.symm⟩

/-- C11: no repository transition removes an entry. `Get` returns with the
repository as it was. Whenever `Add` returns, with or without an error, every
identity present before is present after; if the error is non-nil the set of
keys is unchanged, and if it is nil the set of keys has grown by exactly the
added customer's identity, which was absent. Whenever `Update` returns, with
or without an error, the set of keys is unchanged. For a customer that owns
a Person and a free mutex, `Add` and `Update` do return. -/
theorem C11_no_entry_removed (mr : MemoryRepository) (id : UUID) (c : Customer)
    (h : Heap) :
    (∃ r, mr.Get id = Outcome.ret (r, mr)) ∧
    (∀ e mr1, mr.Add c h = Outcome.ret (e, mr1) →
      (∀ k, mr.hasKey k → mr1.hasKey k) ∧
      (e ≠ GoError.nil → ∀ k, mr1.hasKey k ↔ mr.hasKey k) ∧
      (e = GoError.nil → ∃ cid, c.GetID h = Outcome.ret cid ∧ ¬ mr.hasKey cid ∧
        ∀ k, mr1.hasKey k ↔ (mr.hasKey k ∨ k = cid))) ∧
    (∀ e mr1, mr.Update c h = Outcome.ret (e, mr1) →
      ∀ k, mr1.hasKey k ↔ mr.hasKey k) ∧
    (c.ownsPerson → mr.Mutex.locked = false →
      (∃ e mr1, mr.Add c h = Outcome.ret (e, mr1)) ∧
      (∃ e mr1, mr.Update c h = Outcome.ret (e, mr1))) := by
  refine ⟨?_, ?_, ?_, ?_⟩
  · cases he : mr.customers.entries id with
    | none => exact ⟨_, Get_of_entries_none he⟩
    | some c0 => exact ⟨_, Get_of_entries he⟩
  · intro e mr1 hret
    obtain ⟨cid, hid⟩ := GetID_of_Add_ret hret
    rcases Add_ret_cases hid hret with ⟨_, hm, he⟩ | ⟨hk, _, he, hm⟩
    · subst hm
      refine ⟨fun _ hk => hk, fun _ _ => Iff.rfl, ?_⟩
      intro hnil
      rw [he] at hnil
      cases hnil
    · subst hm
      have hkeys : ∀ k, MemoryRepository.hasKey
          { customers := some (Function.update mr.customers.entries cid (some c)),
            Mutex := mr.Mutex } k ↔ (mr.hasKey k ∨ k = cid) := by
        intro k
        rw [hasKey_insert, hasKey_iff_entries]
        exact Or.comm
      refine ⟨fun k hk0 => (hkeys k).mpr (Or.inl hk0), ?_, ?_⟩
      · intro hne; exact absurd he hne
      · intro _; exact ⟨cid, hid, hk, hkeys⟩
  · intro e mr1 hret k
    obtain ⟨cid, hid⟩ := GetID_of_Update_ret hret
    rcases Update_ret_cases hid hret with ⟨_, hm, _⟩ | ⟨hk, _, _, hm⟩
    · subst hm; exact Iff.rfl
    · subst hm
      rw [hasKey_insert, ← hasKey_iff_entries]
      constructor
      · rintro (hkc | hk0)
        · subst hkc; exact hk
        · exact hk0
      · intro hk0; exact Or.inr hk0
  · intro hown hfree
    obtain ⟨cid, hid⟩ := GetID_of_ownsPerson h hown
    constructor
    · by_cases hk : mr.hasKey cid
      · exact ⟨_, _, Add_present hid hk⟩
      · exact ⟨_, _, Add_absent hid hfree hk⟩
    · by_cases hk : mr.hasKey cid
      · exact ⟨_, _, Update_present hid hfree hk⟩
      · exact ⟨_, _, Update_absent hid hk⟩

/-- C11 on the repository of `memory_test.go`: the test's customer is added
again (refused) and updated (accepted); its identity stays a key. -/
theorem C11_no_entry_removed_witness :
    tedRepo.hasKey tedID ∧
    (∃ e mr1, tedRepo.Add tedCustomer tedHeap = Outcome.ret (e, mr1) ∧
      mr1.hasKey tedID) ∧
    (∃ e mr1, tedRepo.Update tedCustomer tedHeap = Outcome.ret (e, mr1) ∧
      mr1.hasKey tedID) := by
  have hk : tedRepo.hasKey tedID := by
    simp [MemoryRepository.hasKey, tedRepo, CustomerMap.lookup]
  have hall := C11_no_entry_removed tedRepo tedID tedCustomer tedHeap
  obtain ⟨⟨e1, m1, h1⟩, ⟨e2, m2, h2⟩⟩ := hall.2.2.2 (by decide) rfl
  exact ⟨hk, ⟨e1, m1, h1, (hall.2.1 e1 m1 h1).1 tedID hk⟩,
    ⟨e2, m2, h2, (hall.2.2.1 e2 m2 h2 tedID).mpr hk⟩⟩

/-! ## C13: setters and getters -/

theorem SetID_of_no_person {c : Customer} (hp : c.person = none) (id : UUID) (h : Heap) :
    c.SetID id h = Outcome.ret ({ c with person := some h.next },
      (h.alloc Person.zero).2.store h.next { Person.zero with ID := id }) := by
  simp [Customer.SetID, hp, Heap.alloc, Heap.store]

theorem SetName_of_no_person {c : Customer} (hp : c.person = none) (n : String)
    (h : Heap) :
    c.SetName n h = Outcome.ret ({ c with person := some h.next },
      (h.alloc Person.zero).2.store h.next { Person.zero with Name := n }) := by
  simp [Customer.SetName, hp, Heap.alloc, Heap.store]

/-- C13: the setters validate nothing and round-trip with the getters. For
every customer `c` (with or without a Person), identity `id` and string `n`
(the empty string included): `SetID(id)` returns and `GetID()` is then `id`,
while the name is what it was (the customer value is unchanged) or, when the
Person had to be allocated, the empty string; `SetName(n)` returns and
`GetName()` is then `n`, while the identity is what it was or, when the Person
had to be allocated, the zero UUID. The two slices are never touched. -/
theorem C13_setters_round_trip (c : Customer) (h : Heap) (id : UUID) (n : String) :
    (∃ c1 h1, c.SetID id h = Outcome.ret (c1, h1) ∧
      c1.GetID h1 = Outcome.ret id ∧
      c1.products = c.products ∧ c1.transaction = c.transaction ∧
      (c.ownsPerson → c1 = c ∧ c1.GetName h1 = c.GetName h) ∧
      (¬ c.ownsPerson → c1.ownsPerson ∧ c1.GetName h1 = Outcome.ret "")) ∧
    (∃ c2 h2, c.SetName n h = Outcome.ret (c2, h2) ∧
      c2.GetName h2 = Outcome.ret n ∧
      c2.products = c.products ∧ c2.transaction = c.transaction ∧
      (c.ownsPerson → c2 = c ∧ c2.GetID h2 = c.GetID h) ∧
      (¬ c.ownsPerson → c2.ownsPerson ∧ c2.GetID h2 = Outcome.ret UUID.zero)) := by
  cases hp : c.person with
  | none =>
    have hnot : ¬ c.ownsPerson := by simp [Customer.ownsPerson, hp]
    constructor
    · refine ⟨_, _, SetID_of_no_person hp id h, ?_, rfl, rfl, ?_, ?_⟩
      · simp [Customer.GetID, Heap.store]
      · intro hown; exact absurd hown hnot
      · intro _
        simp [Customer.ownsPerson, Customer.GetName, Heap.store, Person.zero]
    · refine ⟨_, _, SetName_of_no_person hp n h, ?_, rfl, rfl, ?_, ?_⟩
      · simp [Customer.GetName, Heap.store]
      · intro hown; exact absurd hown hnot
      · intro _
        simp [Customer.ownsPerson, Customer.GetID, Heap.store, Person.zero]
  | some p =>
    have hnot : ¬ ¬ c.ownsPerson := by simp [Customer.ownsPerson, hp]
    constructor
    · refine ⟨c, _, SetID_of_person hp id h, ?_, rfl, rfl, ?_, ?_⟩
      · simp [Customer.GetID, hp, Heap.store]
      · intro _; simp [Customer.GetName, hp, Heap.store]
      · intro hno; exact absurd hno hnot
    · refine ⟨c, _, SetName_of_person hp n h, ?_, rfl, rfl, ?_, ?_⟩
      · simp [Customer.GetName, hp, Heap.store]
      · intro _; simp [Customer.GetID, hp, Heap.store]
      · intro hno; exact absurd hno hnot

/-- C13 on the zero-value customer and on the test's customer, with the empty
name. -/
theorem C13_setters_round_trip_witness :
    ¬ Customer.zero.ownsPerson ∧ tedCustomer.ownsPerson ∧
    (∃ c2 h2, Customer.zero.SetName "" Heap.empty = Outcome.ret (c2, h2) ∧
      c2.GetName h2 = Outcome.ret "" ∧ c2.GetID h2 = Outcome.ret UUID.zero) ∧
    (∃ c1 h1, tedCustomer.SetID testMissingID tedHeap = Outcome.ret (c1, h1) ∧
      c1.GetID h1 = Outcome.ret testMissingID ∧
      c1.GetName h1 = tedCustomer.GetName tedHeap) := by
  have hz : ¬ Customer.zero.ownsPerson := by decide
  have ht : tedCustomer.ownsPerson := by decide
  obtain ⟨_, ⟨c2, h2, hs2, hg2, _, _, _, hno2⟩⟩ :=
    C13_setters_round_trip Customer.zero Heap.empty UUID.zero ""
  obtain ⟨⟨c1, h1, hs1, hg1, _, _, hown1, _⟩, _⟩ :=
    C13_setters_round_trip tedCustomer tedHeap testMissingID ""
  exact ⟨hz, ht, ⟨c2, h2, hs2, hg2, (hno2 hz).2⟩, ⟨c1, h1, hs1, hg1, (hown1 ht).2⟩⟩

/-! ## C14: Add on a repository that was not built by New -/

/-- C14: for the zero-value `MemoryRepository` (nil map) and every customer
`c` that owns a Person, `Add(c)` returns nil and leaves a repository whose map
has exactly one entry, `c` under `c.GetID()`; the outcome is the one of
`Add(c)` on the repository returned by `New()`. -/
theorem C14_Add_initialises_nil_map (c : Customer) (h : Heap) (hown : c.ownsPerson) :
    ∃ id mr1, c.GetID h = Outcome.ret id ∧
      MemoryRepository.zero.Add c h = Outcome.ret (GoError.nil, mr1) ∧
      mr1.customers ≠ none ∧ mr1.Mutex.locked = false ∧
      (∀ k c0, mr1.stores k c0 ↔ (k = id ∧ c0 = c)) ∧
      MemoryRepository.zero.Add c h = New.Add c h := by
  obtain ⟨id, hid⟩ := GetID_of_ownsPerson h hown
  have hkz : ¬ MemoryRepository.zero.hasKey id := by
    simp [MemoryRepository.hasKey, MemoryRepository.zero, CustomerMap.lookup]
  have hkn : ¬ New.hasKey id := by
    simp [MemoryRepository.hasKey, New, CustomerMap.make, CustomerMap.lookup]
  have hz := Add_absent hid (rfl : MemoryRepository.zero.Mutex.locked = false) hkz
  have hn := Add_absent hid (rfl : New.Mutex.locked = false) hkn
  refine ⟨id, _, hid, hz, by simp, rfl, ?_, ?_⟩
  · intro k c0
    by_cases hk : k = id
    · subst hk
      simp [MemoryRepository.stores, CustomerMap.lookup, eq_comm]
    · simp [MemoryRepository.stores, CustomerMap.lookup, Function.update, hk,
        MemoryRepository.zero, CustomerMap.entries]
  · rw [hz, hn]
    rfl

/-- C14 on the test's customer. -/
theorem C14_Add_initialises_nil_map_witness :
    tedCustomer.ownsPerson ∧
    ∃ id mr1, tedCustomer.GetID tedHeap = Outcome.ret id ∧
      MemoryRepository.zero.Add tedCustomer tedHeap = Outcome.ret (GoError.nil, mr1) ∧
      mr1.customers ≠ none ∧ mr1.Mutex.locked = false ∧
      (∀ k c0, mr1.stores k c0 ↔ (k = id ∧ c0 = tedCustomer)) ∧
      MemoryRepository.zero.Add tedCustomer tedHeap = New.Add tedCustomer tedHeap :=
  ⟨by decide, C14_Add_initialises_nil_map tedCustomer tedHeap (by decide)⟩

/-! ## C15: Add and Update touch one entry -/

/-- Get reads one entry of the map and nothing else. -/
theorem Get_congr {mr mr1 : MemoryRepository} {id : UUID}
    (he : mr1.customers.entries id = mr.customers.entries id) :
    ∃ r, mr.Get id = Outcome.ret (r, mr) ∧ mr1.Get id = Outcome.ret (r, mr1) := by
  cases hv : mr.customers.entries id with
  | none => exact ⟨_, Get_of_entries_none hv, Get_of_entries_none (he.trans hv)⟩
  | some c0 => exact ⟨_, Get_of_entries hv, Get_of_entries (he.trans hv)⟩

/-- C15: `Add` and `Update` touch only the entry of the customer's own
identity. Whenever `Add(c)` or `Update(c)` returns, with a nil or a non-nil
error, `Get(id)` for every `id` other than `c.GetID()` gives the same customer
and the same error after the call as before it. For a customer that owns a
Person and a free mutex, both calls do return. -/
theorem C15_other_entries_untouched (mr : MemoryRepository) (c : Customer) (h : Heap)
    (cid : UUID) (hid : c.GetID h = Outcome.ret cid) :
    (∀ e mr1, mr.Add c h = Outcome.ret (e, mr1) → ∀ id, id ≠ cid →
      ∃ r, mr.Get id = Outcome.ret (r, mr) ∧ mr1.Get id = Outcome.ret (r, mr1)) ∧
    (∀ e mr1, mr.Update c h = Outcome.ret (e, mr1) → ∀ id, id ≠ cid →
      ∃ r, mr.Get id = Outcome.ret (r, mr) ∧ mr1.Get id = Outcome.ret (r, mr1)) ∧
    (mr.Mutex.locked = false →
      (∃ e mr1, mr.Add c h = Outcome.ret (e, mr1)) ∧
      (∃ e mr1, mr.Update c h = Outcome.ret (e, mr1))) := by
  refine ⟨?_, ?_, ?_⟩
  · intro e mr1 hret id hne
    rcases Add_ret_cases hid hret with ⟨_, hm, _⟩ | ⟨_, _, _, hm⟩
    · subst hm; exact Get_congr rfl
    · subst hm
      exact Get_congr (by simp [CustomerMap.entries, Function.update, hne])
  · intro e mr1 hret id hne
    rcases Update_ret_cases hid hret with ⟨_, hm, _⟩ | ⟨_, _, _, hm⟩
    · subst hm; exact Get_congr rfl
    · subst hm
      exact Get_congr (by simp [CustomerMap.entries, Function.update, hne])
  · intro hfree
    constructor
    · by_cases hk : mr.hasKey cid
      · exact ⟨_, _, Add_present hid hk⟩
      · exact ⟨_, _, Add_absent hid hfree hk⟩
    · by_cases hk : mr.hasKey cid
      · exact ⟨_, _, Update_present hid hfree hk⟩
      · exact ⟨_, _, Update_absent hid hk⟩

/-- C15 on the repository of `memory_test.go`: a second customer is added
under the test's other identity, and the entry of "ted" reads as before. -/
theorem C15_other_entries_untouched_witness :
    otherCustomer.GetID otherHeap = Outcome.ret testMissingID ∧
    tedID ≠ testMissingID ∧
    ∃ mr1, tedRepo.Add otherCustomer otherHeap = Outcome.ret (GoError.nil, mr1) ∧
      tedRepo.Get tedID = Outcome.ret ((tedCustomer, GoError.nil), tedRepo) ∧
      mr1.Get tedID = Outcome.ret ((tedCustomer, GoError.nil), mr1) := by
  have hid : otherCustomer.GetID otherHeap = Outcome.ret testMissingID := by
    simp [Customer.GetID, otherCustomer, otherHeap, tedHeap, NewCustomer, Heap.alloc,
      Heap.empty]
  have hk : ¬ tedRepo.hasKey testMissingID := by
    simp [MemoryRepository.hasKey, tedRepo, CustomerMap.lookup, Function.update,
      testMissingID, tedID]
  have hadd := Add_absent hid (rfl : tedRepo.Mutex.locked = false) hk
  have hget : tedRepo.Get tedID = Outcome.ret ((tedCustomer, GoError.nil), tedRepo) := by
    simp [MemoryRepository.Get, tedRepo, CustomerMap.lookup]
  obtain ⟨r, hr0, hr1⟩ :=
    (C15_other_entries_untouched tedRepo otherCustomer otherHeap testMissingID hid).1
      _ _ hadd tedID (by decide)
  rw [hget] at hr0
  injection hr0 with hr0
  injection hr0 with hr0 _
  subst hr0
  exact ⟨hid, by decide, _, hadd, hget, hr1⟩

/-! ## C17: customers without a Person -/

/-- C17: for a customer with no Person, `GetID()` and `GetName()` end in a
nil-dereference panic; `Update` with it panics in every repository state, and
so does `Add` whenever the map is initialised or the mutex is free (on a nil
map with the mutex held it waits for the mutex first); neither returns an
error value. `NewCustomer("")` returns exactly such a customer, the zero
value. -/
theorem C17_no_person_panics (mr : MemoryRepository) (c : Customer) (h : Heap)
    (fresh : UUID) (hno : c.person = none) :
    c.GetID h = Outcome.panic .nilDeref ∧
    c.GetName h = Outcome.panic .nilDeref ∧
    mr.Update c h = Outcome.panic .nilDeref ∧
    (mr.customers ≠ none ∨ mr.Mutex.locked = false →
      mr.Add c h = Outcome.panic .nilDeref) ∧
    (∀ e mr1, mr.Add c h ≠ Outcome.ret (e, mr1)) ∧
    (∀ e mr1, mr.Update c h ≠ Outcome.ret (e, mr1)) ∧
    (NewCustomer "" fresh h).1.1 = Customer.zero ∧
    Customer.zero.person = none := by
  refine ⟨by simp [Customer.GetID, hno], by simp [Customer.GetName, hno],
    Update_of_no_person mr h hno, (Add_of_no_person mr h hno).2, ?_, ?_,
    by simp [NewCustomer], rfl⟩
  · intro e mr1 hret
    obtain ⟨cid, hid⟩ := GetID_of_Add_ret hret
    simp [Customer.GetID, hno] at hid
  · intro e mr1 hret
    rw [Update_of_no_person mr h hno] at hret
    cases hret

/-- C17 on the customer returned by `NewCustomer("")` and the repository of
`memory_test.go`. -/
theorem C17_no_person_panics_witness :
    (NewCustomer "" tedID Heap.empty).1.1.person = none ∧
    (NewCustomer "" tedID Heap.empty).1.1.GetID tedHeap = Outcome.panic .nilDeref ∧
    tedRepo.Update (NewCustomer "" tedID Heap.empty).1.1 tedHeap
      = Outcome.panic .nilDeref ∧
    tedRepo.Add (NewCustomer "" tedID Heap.empty).1.1 tedHeap
      = Outcome.panic .nilDeref :=
  have hno : (NewCustomer "" tedID Heap.empty).1.1.person = none := by
    simp [NewCustomer, Customer.zero]
  have hall := C17_no_person_panics tedRepo (NewCustomer "" tedID Heap.empty).1.1
    tedHeap tedID hno
  ⟨hno, hall.1, hall.2.2.1, hall.2.2.2.1 (Or.inr rfl)⟩

/-! ## C16: keys agree with identities -/

theorem Get_ret_state {mr mr1 : MemoryRepository} {id : UUID} {r : Customer × GoError}
    (hret : mr.Get id = Outcome.ret (r, mr1)) : mr1 = mr := by
  cases hv : mr.customers.entries id with
  | none =>
    rw [Get_of_entries_none hv] at hret
    injection hret with hret
    injection hret with _ hm
    exact hm.symm
  | some c0 =>
    rw [Get_of_entries hv] at hret
    injection hret with hret
    injection hret with _ hm
    exact hm.symm

theorem entries_of_Get_nil {mr mr1 : MemoryRepository} {id : UUID} {c : Customer}
    (hret : mr.Get id = Outcome.ret ((c, GoError.nil), mr1)) :
    mr.customers.entries id = some c := by
  cases hv : mr.customers.entries id with
  | none =>
    rw [Get_of_entries_none hv] at hret
    injection hret with hret
    injection hret with hr _
    injection hr with _ he
    cases he
  | some c0 =>
    rw [Get_of_entries hv] at hret
    injection hret with hret
    injection hret with hr _
    injection hr with hc _
    rw [hc]

theorem entries_of_stores {mr : MemoryRepository} {id : UUID} {c : Customer}
    (hst : mr.stores id c) : mr.customers.entries id = some c :=
  entries_of_Get_nil (Get_of_stores mr id c hst)

theorem KeysAgree_insert {mr : MemoryRepository} {h : Heap} {c : Customer} {p : Ptr}
    (hinv : KeysAgree mr h) (hp : c.person = some p) (hlive : p < h.next) :
    KeysAgree
      { customers := some (Function.update mr.customers.entries (h.persons p).ID (some c)),
        Mutex := mr.Mutex } h := by
  intro k c0 he
  by_cases hk : k = (h.persons p).ID
  · subst hk
    simp [CustomerMap.entries] at he
    subst he
    exact ⟨p, hp, hlive, rfl⟩
  · simp [CustomerMap.entries, Function.update, hk] at he
    exact hinv k c0 he

theorem KeysAgree_construct {mr : MemoryRepository} {h : Heap} (name : String)
    (fresh : UUID) (hinv : KeysAgree mr h) :
    KeysAgree mr (NewCustomer name fresh h).2 := by
  intro k c0 he
  obtain ⟨p, hp, hlive, hid⟩ := hinv k c0 he
  by_cases hn : name = ""
  · exact ⟨p, hp, by simpa [NewCustomer, hn] using hlive,
      by simpa [NewCustomer, hn] using hid⟩
  · have hne : p ≠ h.next := Nat.ne_of_lt hlive
    refine ⟨p, hp, ?_, ?_⟩
    · have hnext : (NewCustomer name fresh h).2.next = h.next + 1 := by
        simp [NewCustomer, hn, Heap.alloc]
      rw [hnext]
      exact Nat.lt_succ_of_lt hlive
    · simpa [NewCustomer, hn, Heap.alloc, Function.update, hne] using hid

theorem Reachable_invariant {mr : MemoryRepository} {h : Heap} (hr : Reachable mr h) :
    mr.Mutex.locked = false ∧ KeysAgree mr h := by
  induction hr with
  | init h =>
    refine ⟨rfl, ?_⟩
    intro k c he
    simp [New, CustomerMap.make, CustomerMap.entries] at he
  | construct name fresh _ ih => exact ⟨ih.1, KeysAgree_construct name fresh ih.2⟩
  | get id r mr1 _ hret ih =>
    have := Get_ret_state hret
    subst this
    exact ih
  | @add mr0 h0 c p e mr1 _ hp hlive hret ih =>
    have hid : c.GetID h0 = Outcome.ret (h0.persons p).ID := by
      simp [Customer.GetID, hp]
    rcases Add_ret_cases hid hret with ⟨_, hm, _⟩ | ⟨_, _, _, hm⟩
    · subst hm; exact ih
    · subst hm; exact ⟨ih.1, KeysAgree_insert ih.2 hp hlive⟩
  | @update mr0 h0 c p e mr1 _ hp hlive hret ih =>
    have hid : c.GetID h0 = Outcome.ret (h0.persons p).ID := by
      simp [Customer.GetID, hp]
    rcases Update_ret_cases hid hret with ⟨_, hm, _⟩ | ⟨_, _, _, hm⟩
    · subst hm; exact ih
    · subst hm; exact ⟨ih.1, KeysAgree_insert ih.2 hp hlive⟩

/-- C16: in every repository state reachable from `New()` by constructing
customers and by returning calls of `Get`, `Add` and `Update` with customers
that own a Person, the mutex is free, every entry stored under a key `k` is a
customer whose `GetID()` returns `k`, and so `Get(id)`, when it returns a nil
error, returns a customer whose `GetID()` is `id`. -/
theorem C16_keys_agree_with_identities (mr : MemoryRepository) (h : Heap)
    (hr : Reachable mr h) :
    mr.Mutex.locked = false ∧
    (∀ k c, mr.stores k c → c.GetID h = Outcome.ret k) ∧
    (∀ id c mr1, mr.Get id = Outcome.ret ((c, GoError.nil), mr1) →
      c.GetID h = Outcome.ret id) := by
  obtain ⟨hfree, hinv⟩ := Reachable_invariant hr
  refine ⟨hfree, ?_, ?_⟩
  · intro k c hst
    obtain ⟨p, hp, _, hid⟩ := hinv k c (entries_of_stores hst)
    simp [Customer.GetID, hp, hid]
  · intro id c mr1 hret
    obtain ⟨p, hp, _, hid⟩ := hinv id c (entries_of_Get_nil hret)
    simp [Customer.GetID, hp, hid]

/-- C16 on the state reached by `NewCustomer("ted")` followed by `Add`: the
customer is stored, and read back, under its own identity. -/
theorem C16_keys_agree_with_identities_witness :
    ∃ mr1, Reachable mr1 tedHeap ∧ mr1.stores tedID tedCustomer ∧
      tedCustomer.GetID tedHeap = Outcome.ret tedID ∧
      mr1.Get tedID = Outcome.ret ((tedCustomer, GoError.nil), mr1) := by
  have hid : tedCustomer.GetID tedHeap = Outcome.ret tedID := by
    simp [Customer.GetID, tedCustomer, tedHeap, NewCustomer, Heap.alloc, Heap.empty]
  have hk : ¬ New.hasKey tedID := by
    simp [MemoryRepository.hasKey, New, CustomerMap.make, CustomerMap.lookup]
  obtain ⟨mr1, hadd, _, he1, _⟩ :=
    Add_absent_spec hid (rfl : New.Mutex.locked = false) hk
  have hreach : Reachable mr1 tedHeap :=
    Reachable.add tedCustomer 0 GoError.nil mr1
      (Reachable.construct "ted" tedID (Reachable.init Heap.empty))
      (by simp [tedCustomer, NewCustomer, Heap.alloc, Heap.empty])
      (by simp [tedHeap, NewCustomer, Heap.alloc, Heap.empty]) hadd
  have hst := stores_of_entries he1
  exact ⟨mr1, hreach, hst,
    (C16_keys_agree_with_identities mr1 tedHeap hreach).2.1 tedID tedCustomer hst,
    Get_of_entries he1⟩

/-! ## C18: NewOrderService -/

theorem loop_of_allReturnNil {R W : Type} (cfgs : List (OrderConfiguration R W)) :
    ∀ (os : OrderService R) (w : W), allReturnNil cfgs (os, w) →
      NewOrderService.loop cfgs os w
        = ((some (applyConfigs cfgs (os, w)).1, GoError.nil),
            (applyConfigs cfgs (os, w)).2) := by
  induction cfgs with
  | nil => intro os w _; rfl
  | cons cfg cfgs ih =>
    intro os w hall
    obtain ⟨hnil, hrest⟩ := hall
    simp only [NewOrderService.loop, applyConfigs]
    rw [hnil]
    simpa using ih _ _ hrest

theorem loop_of_first_failure {R W : Type} (pre : List (OrderConfiguration R W))
    (cfg : OrderConfiguration R W) (post : List (OrderConfiguration R W)) :
    ∀ (os : OrderService R) (w : W), allReturnNil pre (os, w) →
      (cfg (applyConfigs pre (os, w)).1 (applyConfigs pre (os, w)).2).1.1 ≠ GoError.nil →
      NewOrderService.loop (pre ++ cfg :: post) os w
        = ((none, (cfg (applyConfigs pre (os, w)).1 (applyConfigs pre (os, w)).2).1.1),
            (cfg (applyConfigs pre (os, w)).1 (applyConfigs pre (os, w)).2).2) := by
  induction pre with
  | nil =>
    intro os w _ hfail
    simp only [applyConfigs] at hfail
    simp [NewOrderService.loop, applyConfigs, hfail]
  | cons c0 pre ih =>
    intro os w hall hfail
    obtain ⟨hnil, hrest⟩ := hall
    simp only [applyConfigs] at hfail
    simp only [List.cons_append, NewOrderService.loop, applyConfigs]
    rw [hnil]
    simpa using ih _ _ hrest hfail

theorem exists_first_failure {R W : Type} (cfgs : List (OrderConfiguration R W)) :
    ∀ s : OrderService R × W, ¬ allReturnNil cfgs s →
      ∃ pre cfg post, cfgs = pre ++ cfg :: post ∧ allReturnNil pre s ∧
        (cfg (applyConfigs pre s).1 (applyConfigs pre s).2).1.1 ≠ GoError.nil := by
  induction cfgs with
  | nil => intro s hnot; exact absurd trivial hnot
  | cons c0 cfgs ih =>
    intro s hnot
    by_cases h0 : (c0 s.1 s.2).1.1 = GoError.nil
    · have hrest : ¬ allReturnNil cfgs ((c0 s.1 s.2).1.2, (c0 s.1 s.2).2) :=
        fun hr => hnot ⟨h0, hr⟩
      obtain ⟨pre, cfg, post, hsplit, hpre, hfail⟩ := ih _ hrest
      exact ⟨c0 :: pre, cfg, post, by simp [hsplit], ⟨h0, hpre⟩, hfail⟩
    · exact ⟨[], c0, cfgs, rfl, trivial, h0⟩

/-- C18: `NewOrderService` applies its configurations in the order given and
stops at the first failure. If every configuration returns nil, it returns a
non-nil service, the one all of them were applied to in order, a nil error,
and the program state they left. If the list is `pre ++ cfg :: post`, every
configuration of `pre` returns nil and `cfg` returns a non-nil error, it
returns a nil service with exactly that error, and the program state is the
one `cfg` left: nothing of `post` was applied. One of the two cases always
holds. With the empty list it returns a service whose repository is unset and
a nil error. -/
theorem C18_NewOrderService_first_failure {R W : Type}
    (cfgs : List (OrderConfiguration R W)) (w : W) :
    (allReturnNil cfgs ({ customers := none }, w) →
      NewOrderService cfgs w
        = ((some (applyConfigs cfgs ({ customers := none }, w)).1, GoError.nil),
            (applyConfigs cfgs ({ customers := none }, w)).2)) ∧
    (∀ pre cfg post, cfgs = pre ++ cfg :: post →
      allReturnNil pre ({ customers := none }, w) →
      (cfg (applyConfigs pre ({ customers := none }, w)).1
          (applyConfigs pre ({ customers := none }, w)).2).1.1 ≠ GoError.nil →
      NewOrderService cfgs w
        = ((none, (cfg (applyConfigs pre ({ customers := none }, w)).1
                    (applyConfigs pre ({ customers := none }, w)).2).1.1),
            (cfg (applyConfigs pre ({ customers := none }, w)).1
              (applyConfigs pre ({ customers := none }, w)).2).2)) ∧
    (¬ allReturnNil cfgs ({ customers := none }, w) →
      ∃ pre cfg post, cfgs = pre ++ cfg :: post ∧
        allReturnNil pre ({ customers := none }, w) ∧
        (cfg (applyConfigs pre ({ customers := none }, w)).1
          (applyConfigs pre ({ customers := none }, w)).2).1.1 ≠ GoError.nil) ∧
    (NewOrderService ([] : List (OrderConfiguration R W)) w
      = ((some { customers := none }, GoError.nil), w)) := by
  refine ⟨?_, ?_, ?_, rfl⟩
  · intro hall
    exact loop_of_allReturnNil cfgs _ w hall
  · intro pre cfg post hsplit hpre hfail
    subst hsplit
    exact loop_of_first_failure pre cfg post _ w hpre hfail
  · intro hnot
    exact exists_first_failure cfgs _ hnot

/-- C18 on three configurations that log their tag: with the second one
failing, the third is never applied; with all succeeding, the service carries
the last setting. -/
theorem C18_NewOrderService_first_failure_witness :
    NewOrderService [okConfig "a", failConfig "b", okConfig "c"] []
      = ((none, GoError.wrap "b" GoError.nil), ["a", "b"]) ∧
    NewOrderService [okConfig "a", okConfig "b"] []
      = ((some { customers := some "b" }, GoError.nil), ["a", "b"]) := by
  constructor
  · have hsplit : [okConfig "a", failConfig "b", okConfig "c"]
        = [okConfig "a"] ++ failConfig "b" :: [okConfig "c"] := rfl
    have hthm := (C18_NewOrderService_first_failure
      [okConfig "a", failConfig "b", okConfig "c"] ([] : List String)).2.1
      [okConfig "a"] (failConfig "b") [okConfig "c"] hsplit
      (by simp [allReturnNil, okConfig])
      (by simp [applyConfigs, okConfig, failConfig])
    simpa [applyConfigs, okConfig, failConfig] using hthm
  · have hthm := (C18_NewOrderService_first_failure
      [okConfig "a", okConfig "b"] ([] : List String)).1
      (by simp [allReturnNil, okConfig])
    simpa [applyConfigs, okConfig] using hthm

/-! ## C12: concurrent Add -/

/-- Run on its own, statement by statement, a call of `Add` ends exactly as
`MemoryRepository.Add` does. -/
theorem AddPC_run_eq_Add (mr : MemoryRepository) (c : Customer) (h : Heap) :
    AddPC.run 10 .line34 c h mr = mr.Add c h := by
  obtain ⟨m, mu⟩ := mr
  cases mu with
  | mk l =>
    cases hp : c.person with
    | none =>
      cases m <;> cases l <;>
        simp [AddPC.run, AddPC.step, MemoryRepository.Add, Mutex.Lock, Mutex.Unlock,
          Customer.GetID, hp, CustomerMap.make, bind, Outcome.bind]
    | some p =>
      cases m with
      | none =>
        cases l <;>
          simp [AddPC.run, AddPC.step, MemoryRepository.Add, Mutex.Lock, Mutex.Unlock,
            Customer.GetID, hp, CustomerMap.make, CustomerMap.lookup,
            CustomerMap.assign, bind, Outcome.bind]
      | some f =>
        cases hf : f (h.persons p).ID <;> cases l <;>
          simp [AddPC.run, AddPC.step, MemoryRepository.Add, Mutex.Lock, Mutex.Unlock,
            Customer.GetID, hp, CustomerMap.lookup, hf, CustomerMap.assign, bind,
            Outcome.bind]

/-- C12 (the code at the failing input): two calls `Add(c)` with the test's
customer run at the same time on the repository of `New()`. Under the schedule
in which both pass the existence check of line 40 before either takes the
lock, both calls return nil: two calls succeed, none fails with
`ErrFailedToAddCustomer`. Run one after the other, the first returns nil and
the second the wrapped `ErrFailedToAddCustomer`. -/
theorem C12_concurrent_Add_both_succeed :
    (runSchedule raceSchedule
        [{ c := tedCustomer, pc := .line34 }, { c := tedCustomer, pc := .line34 }]
        tedHeap New).1
      = [{ c := tedCustomer, pc := .returned GoError.nil },
         { c := tedCustomer, pc := .returned GoError.nil }] ∧
    (runSchedule serialSchedule
        [{ c := tedCustomer, pc := .line34 }, { c := tedCustomer, pc := .line34 }]
        tedHeap New).1
      = [{ c := tedCustomer, pc := .returned GoError.nil },
         { c := tedCustomer, pc := .returned (GoError.wrap "customer already exists :"
            (GoError.sentinel .ErrFailedToAddCustomer)) }] := by
  constructor <;>
    simp [runSchedule, raceSchedule, serialSchedule, AddPC.step, New, CustomerMap.make,
      CustomerMap.lookup, CustomerMap.assign, Mutex.Lock, Mutex.Unlock, Customer.GetID,
      tedCustomer, tedHeap, NewCustomer, Heap.alloc, Heap.empty]

end GoImplDDD
